import Mathlib

/-!
Verification of the curequests transport engine against its specification.

The development shallowly embeds the Python sources:
  curequests/resource_pool.py   (ResourcePool)
  curequests/connection_pool.py (Connection, ConnectionPool)
  curequests/sessions.py        (CuSession._get_next_method)
  curequests/adapters.py        (CuHTTPAdapter.get_ssl_params)
  curequests/network.py         (open_connection, ssl_wrap_socket)
  curequests/cuhttp.py          (ResponseParser.parse, body_stream)
  curequests/models.py          (MultipartBody)

Python dicts are modelled as association lists preserving insertion order
(dict keys keep their position, new keys are appended at the end), object
identity of resources and futures is modelled with counters, and machine
integers are Int or Nat.  Exceptions and assert statements are modelled
with Except.
-/

namespace Curequests

/-- Pool keys; Python uses arbitrary hashable keys, here Nat. -/
abbrev Key := Nat

/-- A pooled resource; rid models Python object identity of Resource(key). -/
structure Resource where
  key : Key
  rid : Nat
deriving DecidableEq, Repr

/-- An ordered dictionary of lists: Python dict \x7bkey: [item, ...]\x7d. -/
abbrev ODict (α : Type) := List (Key × List α)

/-- Lookup modelling dict.get(key, []): the bucket of the first matching key. -/
def dget {α : Type} : ODict α → Key → List α
  | [], _ => []
  | (k, v) :: rest, k' => if k = k' then v else dget rest k'

/-- Update modelling in-place mutation of an existing bucket, or
dict.setdefault inserting a fresh key at the end of the insertion order. -/
def dset {α : Type} : ODict α → Key → List α → ODict α
  | [], k', v' => [(k', v')]
  | (k, v) :: rest, k', v' =>
      if k = k' then (k, v') :: rest else (k, v) :: dset rest k' v'

/-- Total number of items stored in all buckets of the dictionary. -/
def dcount {α : Type} (d : ODict α) : Nat :=
  (d.map (fun p => p.2.length)).sum

/-- First key (in insertion order) with a non-empty bucket, together with the
oldest item of that bucket and the rest of the bucket. -/
def firstNonempty {α : Type} : ODict α → Option (Key × α × List α)
  | [] => none
  | (_, []) :: rest => firstNonempty rest
  | (k, x :: xs) :: _ => some (k, x, xs)

/-- The payload of the nested ResourcePoolResult handed to a notified waiter:
the source builds either ResourcePoolResult(idle=item) or
ResourcePoolResult(need_open=need_open). -/
inductive Notify where
  | idleRes (r : Resource)
  | openRes (r : Resource)
deriving DecidableEq, Repr

/-- ResourcePoolResult from resource_pool.py, with need_notify carrying the
waiter (a future id) and its payload. -/
structure ResourcePoolResult where
  idle : Option Resource := none
  needOpen : Option Resource := none
  needClose : Option Resource := none
  needNotify : Option (Nat × Notify) := none
  needWait : Option Nat := none
deriving DecidableEq, Repr

/-- Errors: ResourcePoolClosedError raised by get, the KeyError/ValueError
raised by busy_resources[item.key].remove(item), and the two assert
statements in resource_pool.py. -/
inductive PoolErr where
  | closedErr
  | keyErr
  | assertStillFull
  | assertTwoClose
deriving DecidableEq, Repr

/-- State of a ResourcePool: the fields of ResourcePool.__init__, plus the
two counters nextRid and nextFid modelling allocation of fresh Resource
objects and fresh futures. -/
structure ResourcePool where
  closed : Bool
  maxItemsPerKey : Nat
  maxItemsTotal : Nat
  idleResources : ODict Resource
  busyResources : ODict Resource
  waitings : ODict Nat
  numIdle : Int
  numTotal : Int
  nextRid : Nat
  nextFid : Nat
deriving DecidableEq, Repr

namespace ResourcePool

/-- ResourcePool.__init__. -/
def init (maxItemsPerKey maxItemsTotal : Nat) : ResourcePool :=
  { closed := false
    maxItemsPerKey := maxItemsPerKey
    maxItemsTotal := maxItemsTotal
    idleResources := []
    busyResources := []
    waitings := []
    numIdle := 0
    numTotal := 0
    nextRid := 0
    nextFid := 0 }

/-- ResourcePool.size: number of resources with the given key. -/
def size (s : ResourcePool) (k : Key) : Nat :=
  (dget s.idleResources k).length + (dget s.busyResources k).length

/-- ResourcePool.num_busy. -/
def numBusy (s : ResourcePool) : Int :=
  s.numTotal - s.numIdle

/-- ResourcePool._close_an_idle_resource: pop the oldest idle entry of the
first non-empty key in insertion order, adjusting both counters; returns the
state unchanged and none when every idle bucket is empty. -/
def closeAnIdleResource (s : ResourcePool) : ResourcePool × Option Resource :=
  match firstNonempty s.idleResources with
  | none => (s, none)
  | some (k, r, rs) =>
      ({ s with idleResources := dset s.idleResources k rs
                numIdle := s.numIdle - 1
                numTotal := s.numTotal - 1 }, some r)

/-- ResourcePool._open_new_resource: allocate a fresh busy Resource. -/
def openNewResource (s : ResourcePool) (k : Key) : ResourcePool × Resource :=
  let r : Resource := ⟨k, s.nextRid⟩
  ({ s with busyResources := dset s.busyResources k (dget s.busyResources k ++ [r])
            numTotal := s.numTotal + 1
            nextRid := s.nextRid + 1 }, r)

/-- ResourcePool._open_new_resource_if_permit, returning
(state, need_close, need_open); the assert in the eviction branch is
modelled as the error assertStillFull. -/
def openNewResourceIfPermit (s : ResourcePool) (k : Key) :
    Except PoolErr (ResourcePool × Option Resource × Option Resource) :=
  let canOpenKey := s.size k < s.maxItemsPerKey
  let canOpenTotal := s.numTotal < (s.maxItemsTotal : Int)
  let canClose := 0 < s.numIdle
  if canOpenKey ∧ canOpenTotal then
    let p := openNewResource s k
    .ok (p.1, none, some p.2)
  else if canOpenKey ∧ ¬canOpenTotal ∧ canClose then
    match closeAnIdleResource s with
    | (_, none) => .error .assertStillFull
    | (s1, some rc) =>
        if s1.numTotal < (s1.maxItemsTotal : Int) then
          let p := openNewResource s1 k
          .ok (p.1, some rc, some p.2)
        else .error .assertStillFull
  else .ok (s, none, none)

/-- ResourcePool._get. -/
def get (s : ResourcePool) (k : Key) :
    Except PoolErr (ResourcePool × ResourcePoolResult) :=
  if s.closed then .error .closedErr else
  let idles := dget s.idleResources k
  match idles.getLast? with
  | some item =>
      let s' := { s with
        idleResources := dset s.idleResources k idles.dropLast
        busyResources := dset s.busyResources k (dget s.busyResources k ++ [item])
        numIdle := s.numIdle - 1 }
      .ok (s', { idle := some item })
  | none =>
      match openNewResourceIfPermit s k with
      | .error e => .error e
      | .ok (s1, nc, some r) => .ok (s1, { needClose := nc, needOpen := some r })
      | .ok (s1, _, none) =>
          let fid := s1.nextFid
          let s2 := { s1 with
            waitings := dset s1.waitings k (dget s1.waitings k ++ [fid])
            nextFid := s1.nextFid + 1 }
          .ok (s2, { needWait := some fid })

/-- The for loop at the end of ResourcePool._put, scanning the waitings dict
in insertion order of keys: at the first key with a waiter for which
_open_new_resource_if_permit grants a need_open, notify the oldest waiter of
that key with a payload carrying need_open, run the assert guarding against
closing two resources at once, overwrite need_close with the permit result
and stop.  rc is the value of ret.need_close when the loop starts.  The
state is threaded; a no-grant permit call leaves it unchanged. -/
def scanWaiters (s : ResourcePool) (rc : Option Resource) :
    List (Key × List Nat) → Except PoolErr (ResourcePool × ResourcePoolResult)
  | [] => .ok (s, { needClose := rc })
  | (_, []) :: rest => scanWaiters s rc rest
  | (k, w :: wrest) :: rest =>
      match openNewResourceIfPermit s k with
      | .error e => .error e
      | .ok (s1, nc, some r) =>
          if nc.isSome ∧ rc.isSome then .error .assertTwoClose
          else
            .ok ({ s1 with waitings := dset s1.waitings k wrest },
                 { needClose := nc, needNotify := some (w, Notify.openRes r) })
      | .ok (s1, _, none) => scanWaiters s1 rc rest

/-- ResourcePool._put.  A put on a closed pool only returns need_close.
Otherwise busy_resources[item.key].remove(item) is modelled by erase, with
the KeyError/ValueError when the item is not busy modelled as keyErr. -/
def put (s : ResourcePool) (item : Resource) (close : Bool) :
    Except PoolErr (ResourcePool × ResourcePoolResult) :=
  if s.closed then .ok (s, { needClose := some item }) else
  let bucket := dget s.busyResources item.key
  if item ∈ bucket then
    let s0 := { s with busyResources := dset s.busyResources item.key (bucket.erase item) }
    if close then
      let s1 := { s0 with numTotal := s0.numTotal - 1 }
      scanWaiters s1 (some item) s1.waitings
    else
      match dget s0.waitings item.key with
      | w :: wrest =>
          let s1 := { s0 with
            busyResources := dset s0.busyResources item.key
              (dget s0.busyResources item.key ++ [item])
            waitings := dset s0.waitings item.key wrest }
          .ok (s1, { needNotify := some (w, Notify.idleRes item) })
      | [] =>
          let s1 := { s0 with
            idleResources := dset s0.idleResources item.key
              (dget s0.idleResources item.key ++ [item])
            numIdle := s0.numIdle + 1 }
          scanWaiters s1 none s1.waitings
  else .error .keyErr

/-- ResourcePool._close: fail all waiters, close all idle resources, close
busy resources as well when force is set, and zero both counters. -/
def close (s : ResourcePool) (force : Bool) :
    ResourcePool × List Resource × List Nat :=
  let needWait := (s.waitings.map Prod.snd).flatten
  let idleClose := (s.idleResources.map Prod.snd).flatten
  let needClose := if force then idleClose ++ (s.busyResources.map Prod.snd).flatten else idleClose
  ({ s with closed := true
            idleResources := []
            busyResources := if force then [] else s.busyResources
            waitings := []
            numIdle := 0
            numTotal := 0 }, needClose, needWait)

end ResourcePool

theorem dget_dset_self {α : Type} (d : ODict α) (k : Key) (v : List α) :
    dget (dset d k v) k = v := by
  induction d with
  | nil => simp [dget, dset]
  | cons p rest ih =>
      obtain ⟨k0, v0⟩ := p
      by_cases h : k0 = k <;> simp [dget, dset, h, ih]

theorem dget_dset_ne {α : Type} (d : ODict α) (k k' : Key) (v : List α)
    (h : k' ≠ k) : dget (dset d k v) k' = dget d k' := by
  have hkk : k ≠ k' := Ne.symm h
  induction d with
  | nil => simp [dget, dset, hkk]
  | cons p rest ih =>
      obtain ⟨k0, v0⟩ := p
      by_cases h0 : k0 = k
      · subst h0
        simp [dget, dset, hkk]
      · by_cases h1 : k0 = k'
        · subst h1
          simp [dget, dset, h0]
        · simp [dget, dset, h0, h1, ih]

theorem dcount_dset {α : Type} (d : ODict α) (k : Key) (v : List α) :
    dcount (dset d k v) + (dget d k).length = dcount d + v.length := by
  induction d with
  | nil => simp [dget, dset, dcount]
  | cons p rest ih =>
      obtain ⟨k0, v0⟩ := p
      simp only [dcount] at ih ⊢
      by_cases h : k0 = k
      · subst h
        simp [dset, dget]
        omega
      · simp only [dset, dget, if_neg h, List.map_cons, List.sum_cons]
        omega

theorem dget_length_le_dcount {α : Type} (d : ODict α) (k : Key) :
    (dget d k).length ≤ dcount d := by
  induction d with
  | nil => simp [dget, dcount]
  | cons p rest ih =>
      obtain ⟨k0, v0⟩ := p
      simp only [dcount] at ih ⊢
      by_cases h : k0 = k
      · subst h
        simp [dget]
      · simp only [dget, if_neg h, List.map_cons, List.sum_cons]
        omega

theorem mem_keys_dset {α : Type} (d : ODict α) (k : Key) (v : List α) (a : Key) :
    a ∈ (dset d k v).map Prod.fst → a ∈ d.map Prod.fst ∨ a = k := by
  induction d with
  | nil =>
      intro h
      right
      simpa [dset] using h
  | cons p rest ih =>
      obtain ⟨k0, v0⟩ := p
      intro h
      by_cases h0 : k0 = k
      · left
        simpa [dset, h0] using h
      · simp only [dset, if_neg h0, List.map_cons, List.mem_cons] at h
        rcases h with h | h
        · left
          exact List.mem_cons.mpr (Or.inl h)
        · rcases ih h with h' | h'
          · left
            exact List.mem_cons.mpr (Or.inr h')
          · right
            exact h'

theorem nodup_keys_dset {α : Type} (d : ODict α) (k : Key) (v : List α) :
    (d.map Prod.fst).Nodup → ((dset d k v).map Prod.fst).Nodup := by
  induction d with
  | nil => intro _; simp [dset]
  | cons p rest ih =>
      obtain ⟨k0, v0⟩ := p
      intro h
      by_cases h0 : k0 = k
      · simpa [dset, h0] using h
      · simp only [List.map_cons, List.nodup_cons] at h
        simp only [dset, if_neg h0, List.map_cons, List.nodup_cons]
        refine ⟨fun hmem => ?_, ih h.2⟩
        rcases mem_keys_dset rest k v k0 hmem with h' | h'
        · exact h.1 h'
        · exact h0 h'

theorem firstNonempty_of_dcount_pos {α : Type} (d : ODict α) :
    0 < dcount d → ∃ k x xs, firstNonempty d = some (k, x, xs) := by
  induction d with
  | nil => intro h; simp [dcount] at h
  | cons p rest ih =>
      obtain ⟨k0, v0⟩ := p
      intro h
      cases v0 with
      | nil =>
          simp only [dcount, List.map_cons, List.sum_cons, List.length_nil,
            Nat.zero_add] at h
          rcases ih (by simpa [dcount] using h) with ⟨k, x, xs, hfx⟩
          exact ⟨k, x, xs, by simpa [firstNonempty] using hfx⟩
      | cons x xs => exact ⟨k0, x, xs, rfl⟩

theorem firstNonempty_mem {α : Type} (d : ODict α) (k : Key) (x : α)
    (xs : List α) : firstNonempty d = some (k, x, xs) → (k, x :: xs) ∈ d := by
  induction d with
  | nil => intro h; simp [firstNonempty] at h
  | cons p rest ih =>
      obtain ⟨k0, v0⟩ := p
      cases v0 with
      | nil =>
          intro h
          simp only [firstNonempty] at h
          exact List.mem_cons_of_mem _ (ih h)
      | cons y ys =>
          intro h
          simp only [firstNonempty, Option.some.injEq, Prod.mk.injEq] at h
          obtain ⟨h1, h2, h3⟩ := h
          subst h1
          subst h2
          subst h3
          exact List.mem_cons_self _ _

theorem dget_of_mem_nodup {α : Type} (d : ODict α) (k : Key) (l : List α) :
    (d.map Prod.fst).Nodup → (k, l) ∈ d → dget d k = l := by
  induction d with
  | nil => intro _ hm; simp at hm
  | cons p rest ih =>
      obtain ⟨k0, v0⟩ := p
      intro hnd hm
      simp only [List.map_cons, List.nodup_cons] at hnd
      rcases List.mem_cons.mp hm with h | h
      · rw [Prod.ext_iff] at h
        obtain ⟨h1, h2⟩ := h
        simp only at h1 h2
        simp [dget, h1.symm, h2.symm]
      · have hk0 : k0 ≠ k := by
          intro hk
          apply hnd.1
          rw [hk]
          exact List.mem_map.mpr ⟨(k, l), h, rfl⟩
        simp [dget, hk0, ih hnd.2 h]

/-- Well-formedness of the dict encodings: a Python dict has no duplicate
keys. -/
def WFkeys (s : ResourcePool) : Prop :=
  (s.idleResources.map Prod.fst).Nodup ∧
  (s.busyResources.map Prod.fst).Nodup ∧
  (s.waitings.map Prod.fst).Nodup

/-- The cached counters equal the actual sizes of the idle set and of the
union of idle and busy sets. -/
def Accurate (s : ResourcePool) : Prop :=
  s.numIdle = (dcount s.idleResources : Int) ∧
  s.numTotal = (dcount s.idleResources : Int) + (dcount s.busyResources : Int)

/-- The capacity bounds from the specification. -/
def Capped (s : ResourcePool) : Prop :=
  s.numTotal ≤ (s.maxItemsTotal : Int) ∧ ∀ k, s.size k ≤ s.maxItemsPerKey

/-- The pool invariant.  The num_total counter matches the actual number of
resources only while the pool is not closed: close() zeroes num_total even
when busy resources survive a non-forced close. -/
def Inv (s : ResourcePool) : Prop :=
  WFkeys s ∧ Capped s ∧ s.numIdle = (dcount s.idleResources : Int) ∧
  (s.closed = false →
    s.numTotal = (dcount s.idleResources : Int) + (dcount s.busyResources : Int))

/-- The budget of key k permits opening a resource: this is exactly the
condition under which _open_new_resource_if_permit returns a need_open. -/
def grantCond (s : ResourcePool) (k : Key) : Prop :=
  s.size k < s.maxItemsPerKey ∧
  (s.numTotal < (s.maxItemsTotal : Int) ∨ 0 < s.numIdle)

theorem permit_no_grant (s : ResourcePool) (k : Key) (h : ¬ grantCond s k) :
    ResourcePool.openNewResourceIfPermit s k = .ok (s, none, none) := by
  have hA : ¬ (s.size k < s.maxItemsPerKey ∧ s.numTotal < (s.maxItemsTotal : Int)) :=
    fun hh => h ⟨hh.1, Or.inl hh.2⟩
  have hB : ¬ (s.size k < s.maxItemsPerKey ∧
      ¬ s.numTotal < (s.maxItemsTotal : Int) ∧ 0 < s.numIdle) :=
    fun hh => h ⟨hh.1, Or.inr hh.2.2⟩
  unfold ResourcePool.openNewResourceIfPermit
  rw [if_neg hA, if_neg hB]

theorem permit_grant_open (s : ResourcePool) (k : Key)
    (h1 : s.size k < s.maxItemsPerKey)
    (h2 : s.numTotal < (s.maxItemsTotal : Int)) :
    ResourcePool.openNewResourceIfPermit s k =
      .ok ((ResourcePool.openNewResource s k).1, none,
           some (ResourcePool.openNewResource s k).2) := by
  unfold ResourcePool.openNewResourceIfPermit
  rw [if_pos ⟨h1, h2⟩]

theorem permit_grant_evict (s : ResourcePool) (k : Key)
    (h1 : s.size k < s.maxItemsPerKey)
    (h2 : ¬ s.numTotal < (s.maxItemsTotal : Int))
    (h3 : 0 < s.numIdle)
    (hacc : s.numIdle = (dcount s.idleResources : Int))
    (hcap : s.numTotal ≤ (s.maxItemsTotal : Int)) :
    ∃ k1 r1 rs1 s1,
      firstNonempty s.idleResources = some (k1, r1, rs1) ∧
      ResourcePool.closeAnIdleResource s = (s1, some r1) ∧
      s1 = { s with idleResources := dset s.idleResources k1 rs1
                    numIdle := s.numIdle - 1
                    numTotal := s.numTotal - 1 } ∧
      ResourcePool.openNewResourceIfPermit s k =
        .ok ((ResourcePool.openNewResource s1 k).1, some r1,
             some (ResourcePool.openNewResource s1 k).2) := by
  have hpos : 0 < dcount s.idleResources := by omega
  obtain ⟨k1, r1, rs1, hf⟩ := firstNonempty_of_dcount_pos s.idleResources hpos
  refine ⟨k1, r1, rs1, _, hf, ?_, rfl, ?_⟩
  · unfold ResourcePool.closeAnIdleResource
    rw [hf]
  · have hA : ¬ (s.size k < s.maxItemsPerKey ∧ s.numTotal < (s.maxItemsTotal : Int)) :=
      fun hh => h2 hh.2
    unfold ResourcePool.openNewResourceIfPermit
    rw [if_neg hA, if_pos ⟨h1, h2, h3⟩]
    unfold ResourcePool.closeAnIdleResource
    rw [hf]
    have hlt : s.numTotal - 1 < (s.maxItemsTotal : Int) := by omega
    simp only [if_pos hlt]

/-- Combined characterization of a granting _open_new_resource_if_permit
call under the pool invariant: the fresh resource, the state change, the
need_close outcome in both the spare-capacity and the eviction case, and
preservation of the invariant components. -/
theorem permit_grant_full (s : ResourcePool) (k : Key) (hg : grantCond s k)
    (hWF : WFkeys s) (hacc : Accurate s) (hcap : Capped s) :
    ∃ s2 nc, ResourcePool.openNewResourceIfPermit s k =
        .ok (s2, nc, some ⟨k, s.nextRid⟩) ∧
      WFkeys s2 ∧ Accurate s2 ∧ Capped s2 ∧
      s2.closed = s.closed ∧ s2.waitings = s.waitings ∧
      s2.nextFid = s.nextFid ∧ s2.maxItemsPerKey = s.maxItemsPerKey ∧
      s2.maxItemsTotal = s.maxItemsTotal ∧ s2.nextRid = s.nextRid + 1 ∧
      dget s2.busyResources k = dget s.busyResources k ++ [⟨k, s.nextRid⟩] ∧
      (∀ k', k' ≠ k → dget s2.busyResources k' = dget s.busyResources k') ∧
      (s.numTotal < (s.maxItemsTotal : Int) →
        nc = none ∧ s2.idleResources = s.idleResources ∧
        s2.numTotal = s.numTotal + 1 ∧ s2.numIdle = s.numIdle) ∧
      (¬ s.numTotal < (s.maxItemsTotal : Int) →
        ∃ k1 r1 rs1, firstNonempty s.idleResources = some (k1, r1, rs1) ∧
          dget s.idleResources k1 = r1 :: rs1 ∧ nc = some r1 ∧
          s2.idleResources = dset s.idleResources k1 rs1 ∧
          s2.numTotal = s.numTotal ∧ s2.numIdle = s.numIdle - 1) := by
  obtain ⟨hWFi, hWFb, hWFw⟩ := hWF
  obtain ⟨hacc1, hacc2⟩ := hacc
  obtain ⟨hcap1, hcap2⟩ := hcap
  by_cases htot : s.numTotal < (s.maxItemsTotal : Int)
  · have hb := dcount_dset s.busyResources k
      (dget s.busyResources k ++ [(⟨k, s.nextRid⟩ : Resource)])
    simp only [List.length_append, List.length_cons, List.length_nil] at hb
    refine ⟨(ResourcePool.openNewResource s k).1, none,
      permit_grant_open s k hg.1 htot,
      ⟨hWFi, nodup_keys_dset _ _ _ hWFb, hWFw⟩, ⟨hacc1, ?_⟩, ⟨?_, ?_⟩,
      rfl, rfl, rfl, rfl, rfl, rfl, dget_dset_self _ _ _,
      fun k' hk' => dget_dset_ne _ _ _ _ hk',
      fun _ => ⟨rfl, rfl, rfl, rfl⟩, fun h => absurd htot h⟩
    · show s.numTotal + 1 = (dcount s.idleResources : Int) +
        (dcount (dset s.busyResources k
          (dget s.busyResources k ++ [(⟨k, s.nextRid⟩ : Resource)])) : Int)
      omega
    · show s.numTotal + 1 ≤ (s.maxItemsTotal : Int)
      omega
    · intro k'
      have hsz := hcap2 k'
      have hszk := hcap2 k
      simp only [ResourcePool.size] at hsz hszk
      show (dget s.idleResources k').length +
        (dget (dset s.busyResources k
          (dget s.busyResources k ++ [(⟨k, s.nextRid⟩ : Resource)])) k').length ≤
        s.maxItemsPerKey
      have hgk := hg.1
      simp only [ResourcePool.size] at hgk
      by_cases hk' : k' = k
      · subst hk'
        rw [dget_dset_self]
        simp only [List.length_append, List.length_cons, List.length_nil]
        omega
      · rw [dget_dset_ne _ _ _ _ hk']
        omega
  · obtain ⟨k1, r1, rs1, s1, hf, hclose, hs1, hpermit⟩ :=
      permit_grant_evict s k hg.1 htot
        (by rcases hg.2 with h | h
            · exact absurd h htot
            · exact h)
        hacc1 hcap1
    have hdg1 : dget s.idleResources k1 = r1 :: rs1 :=
      dget_of_mem_nodup _ _ _ hWFi (firstNonempty_mem _ _ _ _ hf)
    have hidle := dcount_dset s.idleResources k1 rs1
    rw [hdg1] at hidle
    simp only [List.length_cons] at hidle
    subst hs1
    have hb := dcount_dset s.busyResources k
      (dget s.busyResources k ++ [(⟨k, s.nextRid⟩ : Resource)])
    simp only [List.length_append, List.length_cons, List.length_nil] at hb
    refine ⟨_, some r1, hpermit,
      ⟨nodup_keys_dset _ _ _ hWFi, nodup_keys_dset _ _ _ hWFb, hWFw⟩,
      ⟨?_, ?_⟩, ⟨?_, ?_⟩, rfl, rfl, rfl, rfl, rfl, rfl, dget_dset_self _ _ _,
      fun k' hk' => dget_dset_ne _ _ _ _ hk', fun h => absurd h htot,
      fun _ => ⟨k1, r1, rs1, hf, hdg1, rfl, rfl,
        show s.numTotal - 1 + 1 = s.numTotal by omega, rfl⟩⟩
    · show s.numIdle - 1 = (dcount (dset s.idleResources k1 rs1) : Int)
      omega
    · show s.numTotal - 1 + 1 = (dcount (dset s.idleResources k1 rs1) : Int) +
        (dcount (dset s.busyResources k
          (dget s.busyResources k ++ [(⟨k, s.nextRid⟩ : Resource)])) : Int)
      omega
    · show s.numTotal - 1 + 1 ≤ (s.maxItemsTotal : Int)
      omega
    · intro k'
      have hsz := hcap2 k'
      simp only [ResourcePool.size] at hsz
      have hgk := hg.1
      simp only [ResourcePool.size] at hgk
      show (dget (dset s.idleResources k1 rs1) k').length +
        (dget (dset s.busyResources k
          (dget s.busyResources k ++ [(⟨k, s.nextRid⟩ : Resource)])) k').length ≤
        s.maxItemsPerKey
      have hi' : (dget (dset s.idleResources k1 rs1) k').length ≤
          (dget s.idleResources k').length := by
        by_cases hk1 : k' = k1
        · subst hk1
          rw [dget_dset_self, hdg1]
          simp
        · rw [dget_dset_ne _ _ _ _ hk1]
      by_cases hk' : k' = k
      · subst hk'
        rw [dget_dset_self]
        simp only [List.length_append, List.length_cons, List.length_nil]
        omega
      · rw [dget_dset_ne _ _ _ _ hk']
        omega

/-- Declarative description of the outcome of the waiter scan started in
state s with pending need_close rc over the item list items: either no
non-empty key permits opening and nothing changes, or the oldest waiter w0
of the first key k0 (in insertion order) with a waiter and a permitting
budget is notified with a payload carrying a fresh need_open for k0, k0 is
dequeued from the front, and need_close is the permit result: none when
total capacity is free, otherwise the oldest idle entry of the first
non-empty idle key. -/
def ScanOutcomeOn (s : ResourcePool) (rc : Option Resource)
    (items : List (Key × List Nat)) (s' : ResourcePool)
    (r : ResourcePoolResult) : Prop :=
  r.idle = none ∧ r.needWait = none ∧ r.needOpen = none ∧
  ((r.needNotify = none ∧ s' = s ∧ r.needClose = rc ∧
    (∀ kw ∈ items, kw.2 = [] ∨ ¬ grantCond s kw.1)) ∨
   (∃ pre k0 w0 ws0 post,
      items = pre ++ (k0, w0 :: ws0) :: post ∧
      (∀ kw ∈ pre, kw.2 = [] ∨ ¬ grantCond s kw.1) ∧
      grantCond s k0 ∧
      r.needNotify = some (w0, Notify.openRes ⟨k0, s.nextRid⟩) ∧
      s'.waitings = dset s.waitings k0 ws0 ∧
      (s.numTotal < (s.maxItemsTotal : Int) → r.needClose = none) ∧
      (¬ s.numTotal < (s.maxItemsTotal : Int) →
        ∃ k1 r1 rs1, firstNonempty s.idleResources = some (k1, r1, rs1) ∧
          dget s.idleResources k1 = r1 :: rs1 ∧ r.needClose = some r1)))

/-- Master lemma for the waiter scan at the end of _put: it always succeeds
(in particular neither assert fires), it notifies at most one waiter, and
the notified waiter is the oldest waiter of the first key in insertion order
whose budget permits opening.  Requires that an incoming ret.need_close can
only be present when the pool has spare total capacity (which holds in _put
because close=true decrements num_total first). -/
theorem scan_main (s : ResourcePool) (rc : Option Resource)
    (items : List (Key × List Nat))
    (hWF : WFkeys s) (hacc : Accurate s) (hcap : Capped s)
    (hrc : rc.isSome → s.numTotal < (s.maxItemsTotal : Int)) :
    ∃ s' r, ResourcePool.scanWaiters s rc items = .ok (s', r) ∧
      WFkeys s' ∧ Accurate s' ∧ Capped s' ∧ s'.closed = s.closed ∧
      s'.maxItemsPerKey = s.maxItemsPerKey ∧
      s'.maxItemsTotal = s.maxItemsTotal ∧ s'.nextFid = s.nextFid ∧
      ScanOutcomeOn s rc items s' r := by
  induction items with
  | nil =>
      refine ⟨s, { needClose := rc }, rfl, hWF, hacc, hcap, rfl, rfl, rfl, rfl,
        rfl, rfl, rfl, Or.inl ⟨rfl, rfl, rfl, ?_⟩⟩
      intro kw hkw
      simp at hkw
  | cons kw rest ih =>
      obtain ⟨k, ws⟩ := kw
      cases ws with
      | nil =>
          obtain ⟨s', r, heq, hA, hB, hC, hD, hE, hF, hG, hSO⟩ := ih
          obtain ⟨hH, hI, hJ, hK⟩ := hSO
          refine ⟨s', r, ?_, hA, hB, hC, hD, hE, hF, hG, hH, hI, hJ, ?_⟩
          · simpa [ResourcePool.scanWaiters] using heq
          · rcases hK with ⟨h1, h2', h3, h4⟩ |
              ⟨pre, k0, w0, ws0, post, h1, h2', h3, h4, h5, h6, h7⟩
            · refine Or.inl ⟨h1, h2', h3, ?_⟩
              intro kw hkw
              rcases List.mem_cons.mp hkw with h | h
              · rw [h]
                exact Or.inl rfl
              · exact h4 kw h
            · refine Or.inr ⟨(k, []) :: pre, k0, w0, ws0, post, by simp [h1],
                ?_, h3, h4, h5, h6, h7⟩
              intro kw hkw
              rcases List.mem_cons.mp hkw with h | h
              · rw [h]
                exact Or.inl rfl
              · exact h2' kw h
      | cons w wrest =>
          by_cases hgr : grantCond s k
          · obtain ⟨s2, nc, heq, hWF2, hacc2, hcap2, hcl2, hw2, hfid2, hmpk2,
              hmt2, hrid2, hbk2, hbk2', hlt2, hge2⟩ :=
              permit_grant_full s k hgr hWF hacc hcap
            have hnass : ¬ (nc.isSome ∧ rc.isSome) := by
              by_cases htot : s.numTotal < (s.maxItemsTotal : Int)
              · have : nc = none := (hlt2 htot).1
                simp [this]
              · intro hh
                exact htot (hrc hh.2)
            refine ⟨{ s2 with waitings := dset s2.waitings k wrest },
              { needClose := nc, needNotify := some (w, Notify.openRes ⟨k, s.nextRid⟩) },
              ?_, ?_, ?_, ?_, ?_, ?_, ?_, ?_, rfl, rfl, rfl, ?_⟩
            · simp only [ResourcePool.scanWaiters]
              rw [heq]
              simp only [if_neg hnass]
            · exact ⟨hWF2.1, hWF2.2.1, nodup_keys_dset _ _ _ (hw2 ▸ hWF.2.2)⟩
            · exact hacc2
            · exact ⟨hcap2.1, fun k' => by
                have := hcap2.2 k'
                simpa [ResourcePool.size] using this⟩
            · exact hcl2
            · exact hmpk2
            · exact hmt2
            · exact hfid2
            · refine Or.inr ⟨[], k, w, wrest, rest, rfl, by simp, hgr, rfl, ?_,
                fun htot => (hlt2 htot).1 ▸ rfl, fun htot => ?_⟩
              · show dset s2.waitings k wrest = dset s.waitings k wrest
                rw [hw2]
              · obtain ⟨k1, r1, rs1, hf1, hdg1, hnc1, _⟩ := hge2 htot
                exact ⟨k1, r1, rs1, hf1, hdg1, by simp [hnc1]⟩
          · obtain ⟨s', r, heq, hA, hB, hC, hD, hE, hF, hG, hSO⟩ := ih
            obtain ⟨hH, hI, hJ, hK⟩ := hSO
            refine ⟨s', r, ?_, hA, hB, hC, hD, hE, hF, hG, hH, hI, hJ, ?_⟩
            · simp only [ResourcePool.scanWaiters]
              rw [permit_no_grant s k hgr]
              exact heq
            · rcases hK with ⟨h1, h2', h3, h4⟩ |
                ⟨pre, k0, w0, ws0, post, h1, h2', h3, h4, h5, h6, h7⟩
              · refine Or.inl ⟨h1, h2', h3, ?_⟩
                intro kw hkw
                rcases List.mem_cons.mp hkw with h | h
                · rw [h]
                  exact Or.inr hgr
                · exact h4 kw h
              · refine Or.inr ⟨(k, w :: wrest) :: pre, k0, w0, ws0, post,
                  by simp [h1], ?_, h3, h4, h5, h6, h7⟩
                intro kw hkw
                rcases List.mem_cons.mp hkw with h | h
                · rw [h]
                  exact Or.inr hgr
                · exact h2' kw h

theorem dset_dset {α : Type} (d : ODict α) (k : Key) (v w : List α) :
    dset (dset d k v) k w = dset d k w := by
  induction d with
  | nil => simp [dset]
  | cons p rest ih =>
      obtain ⟨k0, v0⟩ := p
      by_cases h : k0 = k
      · subst h
        simp [dset]
      · simp [dset, h, ih]

theorem put_closed (s : ResourcePool) (item : Resource) (close : Bool)
    (h : s.closed = true) :
    ResourcePool.put s item close = .ok (s, { needClose := some item }) := by
  simp [ResourcePool.put, h]

theorem put_eq_close (s : ResourcePool) (item : Resource)
    (hcl : s.closed = false) (hmem : item ∈ dget s.busyResources item.key) :
    ResourcePool.put s item true =
      ResourcePool.scanWaiters
        { s with busyResources := dset s.busyResources item.key ((dget s.busyResources item.key).erase item), numTotal := s.numTotal - 1 }
        (some item) s.waitings := by
  simp only [ResourcePool.put, hcl, Bool.false_eq_true, if_false, if_pos hmem,
    if_true]

theorem put_eq_waiter (s : ResourcePool) (item : Resource) (w : Nat)
    (wrest : List Nat) (hcl : s.closed = false)
    (hmem : item ∈ dget s.busyResources item.key)
    (hw : dget s.waitings item.key = w :: wrest) :
    ResourcePool.put s item false =
      .ok ({ s with busyResources := dset s.busyResources item.key ((dget s.busyResources item.key).erase item ++ [item]), waitings := dset s.waitings item.key wrest },
           { needNotify := some (w, Notify.idleRes item) }) := by
  simp only [ResourcePool.put, hcl, Bool.false_eq_true, if_false, if_pos hmem,
    hw, dget_dset_self, dset_dset]

theorem put_eq_nowaiter (s : ResourcePool) (item : Resource)
    (hcl : s.closed = false) (hmem : item ∈ dget s.busyResources item.key)
    (hw : dget s.waitings item.key = []) :
    ResourcePool.put s item false =
      ResourcePool.scanWaiters
        { s with busyResources := dset s.busyResources item.key ((dget s.busyResources item.key).erase item), idleResources := dset s.idleResources item.key (dget s.idleResources item.key ++ [item]), numIdle := s.numIdle + 1 }
        none s.waitings := by
  simp only [ResourcePool.put, hcl, Bool.false_eq_true, if_false, if_pos hmem,
    hw]

/-- The state of the pool between the bookkeeping of put(item, close=true)
and the waiter scan: item removed from busy and num_total decremented. -/
def MidClose (s s1 : ResourcePool) (item : Resource) : Prop :=
  s1.busyResources = dset s.busyResources item.key
    ((dget s.busyResources item.key).erase item) ∧
  s1.idleResources = s.idleResources ∧ s1.waitings = s.waitings ∧
  s1.numIdle = s.numIdle ∧ s1.numTotal = s.numTotal - 1 ∧
  s1.closed = s.closed ∧ s1.nextRid = s.nextRid ∧ s1.nextFid = s.nextFid ∧
  s1.maxItemsPerKey = s.maxItemsPerKey ∧ s1.maxItemsTotal = s.maxItemsTotal

/-- The state of the pool between the bookkeeping of put(item, close=false)
with no waiter on item.key and the waiter scan: item moved from busy to the
end of its idle bucket and num_idle incremented. -/
def MidIdle (s s1 : ResourcePool) (item : Resource) : Prop :=
  s1.busyResources = dset s.busyResources item.key
    ((dget s.busyResources item.key).erase item) ∧
  s1.idleResources = dset s.idleResources item.key
    (dget s.idleResources item.key ++ [item]) ∧
  s1.waitings = s.waitings ∧ s1.numIdle = s.numIdle + 1 ∧
  s1.numTotal = s.numTotal ∧
  s1.closed = s.closed ∧ s1.nextRid = s.nextRid ∧ s1.nextFid = s.nextFid ∧
  s1.maxItemsPerKey = s.maxItemsPerKey ∧ s1.maxItemsTotal = s.maxItemsTotal

/-- Master lemma for ResourcePool._put on a non-closed pool holding item as
busy: put always succeeds, preserves the invariant components, and behaves
as the specification describes: with close=false either the oldest waiter on
item.key is notified with an idle payload, or item goes to the end of its
idle bucket and the waiter scan runs; with close=true num_total is
decremented and the waiter scan runs with ret.need_close = item. -/
theorem put_main (s : ResourcePool) (item : Resource) (close : Bool)
    (hWF : WFkeys s) (hacc : Accurate s) (hcap : Capped s)
    (hcl : s.closed = false) (hmem : item ∈ dget s.busyResources item.key) :
    ∃ s' r, ResourcePool.put s item close = .ok (s', r) ∧
      WFkeys s' ∧ Accurate s' ∧ Capped s' ∧ s'.closed = false ∧
      s'.maxItemsPerKey = s.maxItemsPerKey ∧
      s'.maxItemsTotal = s.maxItemsTotal ∧
      (close = true → ∃ s1, MidClose s s1 item ∧
        ScanOutcomeOn s1 (some item) s.waitings s' r) ∧
      (close = false →
        ((∃ w wrest, dget s.waitings item.key = w :: wrest ∧
           r = { needNotify := some (w, Notify.idleRes item) } ∧
           s' = { s with busyResources := dset s.busyResources item.key ((dget s.busyResources item.key).erase item ++ [item]), waitings := dset s.waitings item.key wrest }) ∨
         (dget s.waitings item.key = [] ∧ ∃ s1, MidIdle s s1 item ∧
           ScanOutcomeOn s1 none s.waitings s' r))) := by
  have hblen : 0 < (dget s.busyResources item.key).length :=
    List.length_pos_of_mem hmem
  have herase : ((dget s.busyResources item.key).erase item).length =
      (dget s.busyResources item.key).length - 1 :=
    List.length_erase_of_mem hmem
  have hdb := dcount_dset s.busyResources item.key
    ((dget s.busyResources item.key).erase item)
  have hbmax := dget_length_le_dcount s.busyResources item.key
  obtain ⟨hWFi, hWFb, hWFw⟩ := hWF
  obtain ⟨hacc1, hacc2⟩ := hacc
  obtain ⟨hcap1, hcap2⟩ := hcap
  cases close with
  | true =>
      obtain ⟨s', r, hscan, hA, hB, hC, hD, hE, hF, hG, hSO⟩ :=
        scan_main
          { s with busyResources := dset s.busyResources item.key ((dget s.busyResources item.key).erase item), numTotal := s.numTotal - 1 }
          (some item) s.waitings
          ⟨hWFi, nodup_keys_dset _ _ _ hWFb, hWFw⟩
          ⟨hacc1, by
            show s.numTotal - 1 = (dcount s.idleResources : Int) +
              (dcount (dset s.busyResources item.key
                ((dget s.busyResources item.key).erase item)) : Int)
            omega⟩
          ⟨by
            show s.numTotal - 1 ≤ (s.maxItemsTotal : Int)
            omega,
           fun k' => by
            have hsz := hcap2 k'
            simp only [ResourcePool.size] at hsz ⊢
            by_cases hk' : k' = item.key
            · subst hk'
              rw [dget_dset_self]
              omega
            · rw [dget_dset_ne _ _ _ _ hk']
              omega⟩
          (fun _ => by
            show s.numTotal - 1 < (s.maxItemsTotal : Int)
            omega)
      refine ⟨s', r, ?_, hA, hB, hC, hD.trans hcl, hE, hF,
        fun _ => ⟨{ s with busyResources := dset s.busyResources item.key ((dget s.busyResources item.key).erase item), numTotal := s.numTotal - 1 },
          ⟨rfl, rfl, rfl, rfl, rfl, rfl, rfl, rfl, rfl, rfl⟩, hSO⟩,
        fun hff => by simp at hff⟩
      rw [put_eq_close s item hcl hmem]
      exact hscan
  | false =>
      cases hw : dget s.waitings item.key with
      | cons w wrest =>
          have hdb2 := dcount_dset s.busyResources item.key
            ((dget s.busyResources item.key).erase item ++ [item])
          refine ⟨_, _, put_eq_waiter s item w wrest hcl hmem hw,
            ⟨hWFi, nodup_keys_dset _ _ _ hWFb, nodup_keys_dset _ _ _ hWFw⟩,
            ⟨hacc1, ?_⟩, ⟨hcap1, ?_⟩, hcl, rfl, rfl,
            fun htt => by simp at htt,
            fun _ => Or.inl ⟨w, wrest, rfl, rfl, rfl⟩⟩
          · show s.numTotal = (dcount s.idleResources : Int) +
              (dcount (dset s.busyResources item.key
                ((dget s.busyResources item.key).erase item ++ [item])) : Int)
            simp only [List.length_append, List.length_cons, List.length_nil]
              at hdb2
            omega
          · intro k'
            have hsz := hcap2 k'
            simp only [ResourcePool.size] at hsz ⊢
            by_cases hk' : k' = item.key
            · subst hk'
              rw [dget_dset_self]
              simp only [List.length_append, List.length_cons, List.length_nil]
              omega
            · rw [dget_dset_ne _ _ _ _ hk']
              omega
      | nil =>
          have hdi := dcount_dset s.idleResources item.key
            (dget s.idleResources item.key ++ [item])
          simp only [List.length_append, List.length_cons, List.length_nil]
            at hdi
          obtain ⟨s', r, hscan, hA, hB, hC, hD, hE, hF, hG, hSO⟩ :=
            scan_main
              { s with busyResources := dset s.busyResources item.key ((dget s.busyResources item.key).erase item), idleResources := dset s.idleResources item.key (dget s.idleResources item.key ++ [item]), numIdle := s.numIdle + 1 }
              none s.waitings
              ⟨nodup_keys_dset _ _ _ hWFi, nodup_keys_dset _ _ _ hWFb, hWFw⟩
              ⟨by
                show s.numIdle + 1 = (dcount (dset s.idleResources item.key
                  (dget s.idleResources item.key ++ [item])) : Int)
                omega,
               by
                show s.numTotal = (dcount (dset s.idleResources item.key
                    (dget s.idleResources item.key ++ [item])) : Int) +
                  (dcount (dset s.busyResources item.key
                    ((dget s.busyResources item.key).erase item)) : Int)
                omega⟩
              ⟨hcap1, fun k' => by
                have hsz := hcap2 k'
                simp only [ResourcePool.size] at hsz ⊢
                by_cases hk' : k' = item.key
                · subst hk'
                  rw [dget_dset_self, dget_dset_self]
                  simp only [List.length_append, List.length_cons,
                    List.length_nil]
                  omega
                · rw [dget_dset_ne _ _ _ _ hk', dget_dset_ne _ _ _ _ hk']
                  omega⟩
              (fun hh => by simp at hh)
          refine ⟨s', r, ?_, hA, hB, hC, hD.trans hcl, hE, hF,
            fun htt => by simp at htt,
            fun _ => Or.inr ⟨rfl, { s with busyResources := dset s.busyResources item.key ((dget s.busyResources item.key).erase item), idleResources := dset s.idleResources item.key (dget s.idleResources item.key ++ [item]), numIdle := s.numIdle + 1 },
              ⟨rfl, rfl, rfl, rfl, rfl, rfl, rfl, rfl, rfl, rfl⟩, hSO⟩⟩
          rw [put_eq_nowaiter s item hcl hmem hw]
          exact hscan

/-- Declarative description of ResourcePool._get on a non-closed pool, the
four cases of the admission algorithm: reuse the most recently added idle
resource of the key (LIFO), open a fresh resource when both budgets permit,
evict the oldest idle entry of the first non-empty key in insertion order
and open a fresh resource when only the per-key budget permits and an idle
resource exists, or append a fresh waiter to the waiting queue of the key. -/
def GetSpec (s : ResourcePool) (k : Key) (s' : ResourcePool)
    (r : ResourcePoolResult) : Prop :=
  (∀ item, (dget s.idleResources k).getLast? = some item →
    r = { idle := some item } ∧
    s'.idleResources = dset s.idleResources k (dget s.idleResources k).dropLast ∧
    s'.busyResources = dset s.busyResources k (dget s.busyResources k ++ [item]) ∧
    s'.waitings = s.waitings ∧ s'.numIdle = s.numIdle - 1 ∧
    s'.numTotal = s.numTotal ∧ s'.nextFid = s.nextFid ∧
    s'.nextRid = s.nextRid) ∧
  (dget s.idleResources k = [] → s.size k < s.maxItemsPerKey →
   s.numTotal < (s.maxItemsTotal : Int) →
    r = { needOpen := some ⟨k, s.nextRid⟩ } ∧
    dget s'.busyResources k = dget s.busyResources k ++ [⟨k, s.nextRid⟩] ∧
    (∀ k', k' ≠ k → dget s'.busyResources k' = dget s.busyResources k') ∧
    s'.idleResources = s.idleResources ∧ s'.waitings = s.waitings ∧
    s'.numIdle = s.numIdle ∧ s'.numTotal = s.numTotal + 1 ∧
    s'.nextRid = s.nextRid + 1 ∧ s'.nextFid = s.nextFid) ∧
  (dget s.idleResources k = [] → s.size k < s.maxItemsPerKey →
   ¬ s.numTotal < (s.maxItemsTotal : Int) → 0 < s.numIdle →
    ∃ k1 r1 rs1,
      firstNonempty s.idleResources = some (k1, r1, rs1) ∧
      dget s.idleResources k1 = r1 :: rs1 ∧
      r = { needOpen := some ⟨k, s.nextRid⟩, needClose := some r1 } ∧
      s'.idleResources = dset s.idleResources k1 rs1 ∧
      dget s'.busyResources k = dget s.busyResources k ++ [⟨k, s.nextRid⟩] ∧
      (∀ k', k' ≠ k → dget s'.busyResources k' = dget s.busyResources k') ∧
      s'.waitings = s.waitings ∧ s'.numIdle = s.numIdle - 1 ∧
      s'.numTotal = s.numTotal ∧ s'.nextRid = s.nextRid + 1 ∧
      s'.nextFid = s.nextFid) ∧
  (dget s.idleResources k = [] → ¬ grantCond s k →
    r = { needWait := some s.nextFid } ∧
    s'.waitings = dset s.waitings k (dget s.waitings k ++ [s.nextFid]) ∧
    s'.idleResources = s.idleResources ∧
    s'.busyResources = s.busyResources ∧
    s'.numIdle = s.numIdle ∧ s'.numTotal = s.numTotal ∧
    s'.nextRid = s.nextRid ∧ s'.nextFid = s.nextFid + 1)

/-- Master lemma for ResourcePool._get on a non-closed pool: get always
succeeds under the invariant, preserves the invariant components, and
satisfies the four-case admission specification. -/
theorem get_main (s : ResourcePool) (k : Key)
    (hWF : WFkeys s) (hacc : Accurate s) (hcap : Capped s)
    (hcl : s.closed = false) :
    ∃ s' r, ResourcePool.get s k = .ok (s', r) ∧
      WFkeys s' ∧ Accurate s' ∧ Capped s' ∧ s'.closed = false ∧
      s'.maxItemsPerKey = s.maxItemsPerKey ∧
      s'.maxItemsTotal = s.maxItemsTotal ∧
      GetSpec s k s' r := by
  obtain ⟨hWFi, hWFb, hWFw⟩ := hWF
  obtain ⟨hacc1, hacc2⟩ := hacc
  obtain ⟨hcap1, hcap2⟩ := hcap
  cases hidles : (dget s.idleResources k).getLast? with
  | some item =>
      have hne : dget s.idleResources k ≠ [] := by
        intro h
        rw [h] at hidles
        simp at hidles
      have hlen : 0 < (dget s.idleResources k).length :=
        List.length_pos.mpr hne
      have hilemax := dget_length_le_dcount s.idleResources k
      have hdi := dcount_dset s.idleResources k (dget s.idleResources k).dropLast
      have hdb := dcount_dset s.busyResources k (dget s.busyResources k ++ [item])
      simp only [List.length_dropLast, List.length_append, List.length_cons,
        List.length_nil] at hdi hdb
      refine ⟨{ s with idleResources := dset s.idleResources k (dget s.idleResources k).dropLast, busyResources := dset s.busyResources k (dget s.busyResources k ++ [item]), numIdle := s.numIdle - 1 },
        { idle := some item }, ?_,
        ⟨nodup_keys_dset _ _ _ hWFi, nodup_keys_dset _ _ _ hWFb, hWFw⟩,
        ⟨?_, ?_⟩, ⟨hcap1, ?_⟩, hcl, rfl, rfl, ?_, ?_, ?_, ?_⟩
      · simp only [ResourcePool.get, hcl, Bool.false_eq_true, if_false, hidles]
      · show s.numIdle - 1 =
          (dcount (dset s.idleResources k (dget s.idleResources k).dropLast) : Int)
        omega
      · show s.numTotal =
          (dcount (dset s.idleResources k (dget s.idleResources k).dropLast) : Int) +
          (dcount (dset s.busyResources k (dget s.busyResources k ++ [item])) : Int)
        omega
      · intro k'
        have hsz := hcap2 k'
        simp only [ResourcePool.size] at hsz ⊢
        by_cases hk' : k' = k
        · subst hk'
          rw [dget_dset_self, dget_dset_self]
          simp only [List.length_dropLast, List.length_append,
            List.length_cons, List.length_nil]
          omega
        · rw [dget_dset_ne _ _ _ _ hk', dget_dset_ne _ _ _ _ hk']
          omega
      · intro item' h'
        rw [hidles] at h'
        obtain rfl : item = item' := Option.some.injEq .. ▸ h'
        exact ⟨rfl, rfl, rfl, rfl, rfl, rfl, rfl, rfl⟩
      · intro hnil
        exact absurd hnil hne
      · intro hnil
        exact absurd hnil hne
      · intro hnil
        exact absurd hnil hne
  | none =>
      have hnil : dget s.idleResources k = [] := by
        cases hdg : dget s.idleResources k with
        | nil => rfl
        | cons a l =>
            rw [hdg] at hidles
            simp at hidles
      by_cases hgr : grantCond s k
      · obtain ⟨s2, nc, heq, hWF2, hacc2', hcap2', hcl2, hw2, hfid2, hmpk2,
          hmt2, hrid2, hbk2, hbk2', hlt2, hge2⟩ :=
          permit_grant_full s k hgr ⟨hWFi, hWFb, hWFw⟩ ⟨hacc1, hacc2⟩
            ⟨hcap1, hcap2⟩
        refine ⟨s2, { needClose := nc, needOpen := some ⟨k, s.nextRid⟩ }, ?_,
          hWF2, hacc2', hcap2', hcl2.trans hcl, hmpk2, hmt2, ?_, ?_, ?_, ?_⟩
        · simp only [ResourcePool.get, hcl, Bool.false_eq_true, if_false,
            hidles]
          rw [heq]
        · intro item h'
          rw [hnil] at h'
          simp at h'
        · intro _ _ htot
          obtain ⟨hnc, hidle2, htot2, hni2⟩ := hlt2 htot
          subst hnc
          exact ⟨rfl, hbk2, hbk2', hidle2, hw2, hni2, htot2, hrid2, hfid2⟩
        · intro _ _ htot _
          obtain ⟨k1, r1, rs1, hf, hdg1, hnc, hidle2, htot2, hni2⟩ := hge2 htot
          subst hnc
          exact ⟨k1, r1, rs1, hf, hdg1, rfl, hidle2, hbk2, hbk2', hw2, hni2,
            htot2, hrid2, hfid2⟩
        · intro _ hngr
          exact absurd hgr hngr
      · refine ⟨{ s with waitings := dset s.waitings k (dget s.waitings k ++ [s.nextFid]), nextFid := s.nextFid + 1 },
          { needWait := some s.nextFid }, ?_,
          ⟨hWFi, hWFb, nodup_keys_dset _ _ _ hWFw⟩, ⟨hacc1, hacc2⟩,
          ⟨hcap1, hcap2⟩, hcl, rfl, rfl, ?_, ?_, ?_, ?_⟩
        · simp only [ResourcePool.get, hcl, Bool.false_eq_true, if_false,
            hidles]
          rw [permit_no_grant s k hgr]
          simp only [hcl]
        · intro item h'
          rw [hnil] at h'
          simp at h'
        · intro _ h2 h3
          exact absurd ⟨h2, Or.inl h3⟩ hgr
        · intro _ h2 _ h4
          exact absurd ⟨h2, Or.inr h4⟩ hgr
        · intro _ _
          exact ⟨rfl, rfl, rfl, rfl, rfl, rfl, rfl, rfl⟩

theorem put_keyerr (s : ResourcePool) (item : Resource) (close : Bool)
    (hcl : s.closed = false)
    (hmem : item ∉ dget s.busyResources item.key) :
    ResourcePool.put s item close = .error .keyErr := by
  simp [ResourcePool.put, hcl, hmem]

theorem get_closed (s : ResourcePool) (k : Key) (hcl : s.closed = true) :
    ResourcePool.get s k = .error .closedErr := by
  simp [ResourcePool.get, hcl]

theorem inv_close (s : ResourcePool) (hWF : WFkeys s) (hcap : Capped s)
    (f : Bool) :
    WFkeys (ResourcePool.close s f).1 ∧ Capped (ResourcePool.close s f).1 ∧
    (ResourcePool.close s f).1.numIdle =
      (dcount (ResourcePool.close s f).1.idleResources : Int) ∧
    (ResourcePool.close s f).1.closed = true := by
  refine ⟨⟨by simp [ResourcePool.close], ?_, by simp [ResourcePool.close]⟩,
    ⟨?_, ?_⟩, ?_, rfl⟩
  · show ((if f then ([] : ODict Resource) else s.busyResources).map
      Prod.fst).Nodup
    cases f
    · exact hWF.2.1
    · simp
  · show (0 : Int) ≤ (s.maxItemsTotal : Int)
    exact Int.natCast_nonneg _
  · intro k
    show (dget ([] : ODict Resource) k).length +
      (dget (if f then ([] : ODict Resource) else s.busyResources) k).length ≤
      s.maxItemsPerKey
    have hsz := hcap.2 k
    simp only [ResourcePool.size] at hsz
    cases f
    · simp only [if_neg Bool.false_ne_true]
      simp only [dget, List.length_nil]
      omega
    · simp [dget]
  · show (0 : Int) = (dcount ([] : ODict Resource) : Int)
    simp [dcount]

/-- States reachable from a freshly constructed ResourcePool by any sequence
of successful get, put and close operations. -/
inductive Reach : ResourcePool → Prop where
  | init : ∀ mpk mt, Reach (ResourcePool.init mpk mt)
  | getStep : ∀ s k s' r, Reach s → ResourcePool.get s k = .ok (s', r) → Reach s'
  | putStep : ∀ s item c s' r, Reach s → ResourcePool.put s item c = .ok (s', r) → Reach s'
  | closeStep : ∀ s f, Reach s → Reach (ResourcePool.close s f).1

theorem inv_init (mpk mt : Nat) : Inv (ResourcePool.init mpk mt) := by
  refine ⟨⟨by simp [ResourcePool.init], by simp [ResourcePool.init],
    by simp [ResourcePool.init]⟩, ⟨?_, ?_⟩, ?_, ?_⟩
  · show (0 : Int) ≤ (mt : Int)
    exact Int.natCast_nonneg _
  · intro k
    show (dget ([] : ODict Resource) k).length +
      (dget ([] : ODict Resource) k).length ≤ mpk
    simp [dget]
  · show (0 : Int) = (dcount ([] : ODict Resource) : Int)
    simp [dcount]
  · intro _
    show (0 : Int) = (dcount ([] : ODict Resource) : Int) +
      (dcount ([] : ODict Resource) : Int)
    simp [dcount]

/-- Every reachable pool state satisfies the invariant. -/
theorem inv_reach (s : ResourcePool) (h : Reach s) : Inv s := by
  induction h with
  | init mpk mt => exact inv_init mpk mt
  | getStep s k s' r hr heq ih =>
      cases hcs : s.closed with
      | true =>
          rw [get_closed s k hcs] at heq
          simp at heq
      | false =>
          obtain ⟨hWF, hcap, hacc1, hacc2⟩ := ih
          obtain ⟨s'', r'', heq'', hWF', hacc', hcap', hcl', _, _, _⟩ :=
            get_main s k hWF ⟨hacc1, hacc2 hcs⟩ hcap hcs
          rw [heq] at heq''
          obtain ⟨hs, hrr⟩ : s' = s'' ∧ r = r'' := by simpa using heq''
          subst hs
          exact ⟨hWF', hcap', hacc'.1, fun _ => hacc'.2⟩
  | putStep s item c s' r hr heq ih =>
      cases hcs : s.closed with
      | true =>
          rw [put_closed s item c hcs] at heq
          obtain ⟨hs, hrr⟩ : s = s' ∧ _ = r := by simpa using heq
          exact hs ▸ ih
      | false =>
          by_cases hmem : item ∈ dget s.busyResources item.key
          · obtain ⟨hWF, hcap, hacc1, hacc2⟩ := ih
            obtain ⟨s'', r'', heq'', hWF', hacc', hcap', hcl', _, _, _, _⟩ :=
              put_main s item c hWF ⟨hacc1, hacc2 hcs⟩ hcap hcs hmem
            rw [heq] at heq''
            obtain ⟨hs, hrr⟩ : s' = s'' ∧ r = r'' := by simpa using heq''
            subst hs
            exact ⟨hWF', hcap', hacc'.1, fun _ => hacc'.2⟩
          · rw [put_keyerr s item c hcs hmem] at heq
            simp at heq
  | closeStep s f hr ih =>
      obtain ⟨hWF, hcap, _, _⟩ := ih
      obtain ⟨hWF', hcap', hacc', hcl'⟩ := inv_close s hWF hcap f
      exact ⟨hWF', hcap', hacc', fun hcf => nomatch hcl'.symm.trans hcf⟩

/-- A pool with max_items_per_key=10, max_items_total=1 after get(0) handed
out the fresh busy resource (0,0). -/
def poolBusy1 : ResourcePool :=
  { closed := false, maxItemsPerKey := 10, maxItemsTotal := 1,
    idleResources := [], busyResources := [(0, [⟨0, 0⟩])], waitings := [],
    numIdle := 0, numTotal := 1, nextRid := 1, nextFid := 0 }

/-- poolBusy1 after put((0,0), close=false): the resource is idle. -/
def poolIdle1 : ResourcePool :=
  { closed := false, maxItemsPerKey := 10, maxItemsTotal := 1,
    idleResources := [(0, [⟨0, 0⟩])], busyResources := [(0, [])],
    waitings := [], numIdle := 1, numTotal := 1, nextRid := 1, nextFid := 0 }

/-- A pool with max_items_per_key=10, max_items_total=100 after get(0)
handed out the fresh busy resource (0,0). -/
def poolBusy100 : ResourcePool :=
  { closed := false, maxItemsPerKey := 10, maxItemsTotal := 100,
    idleResources := [], busyResources := [(0, [⟨0, 0⟩])], waitings := [],
    numIdle := 0, numTotal := 1, nextRid := 1, nextFid := 0 }

theorem poolBusy1_reach : Reach poolBusy1 :=
  Reach.getStep (ResourcePool.init 10 1) 0 poolBusy1
    { needOpen := some ⟨0, 0⟩ } (Reach.init 10 1) rfl

theorem poolBusy100_reach : Reach poolBusy100 :=
  Reach.getStep (ResourcePool.init 10 100) 0 poolBusy100
    { needOpen := some ⟨0, 0⟩ } (Reach.init 10 100) rfl

/-- C1: on a reachable non-closed pool, get(key) succeeds and follows the
admission algorithm: if an idle resource exists for key, the most recently
added one is popped (LIFO), marked busy, and returned as idle; otherwise if
size(key) < max_per_key and num_total < max_total a fresh busy resource is
returned as need_open; otherwise if size(key) < max_per_key and
num_idle > 0, the oldest idle entry of the first non-empty key in insertion
order is returned as need_close together with a fresh need_open; otherwise
a fresh waiter is appended to the waiting queue of the key and returned as need_wait. -/
theorem claim_C1_get_admission (s : ResourcePool) (k : Key)
    (hr : Reach s) (hcl : s.closed = false) :
    ∃ s' r, ResourcePool.get s k = .ok (s', r) ∧ GetSpec s k s' r := by
  obtain ⟨hWF, hcap, hacc1, hacc2⟩ := inv_reach s hr
  obtain ⟨s', r, heq, _, _, _, _, _, _, hgs⟩ :=
    get_main s k hWF ⟨hacc1, hacc2 hcl⟩ hcap hcl
  exact ⟨s', r, heq, hgs⟩

theorem claim_C1_get_admission_witness :
    ∃ s' r, ResourcePool.get (ResourcePool.init 10 100) 0 = .ok (s', r) ∧
      GetSpec (ResourcePool.init 10 100) 0 s' r :=
  claim_C1_get_admission (ResourcePool.init 10 100) 0 (Reach.init 10 100) rfl

/-- C3 counterexample: the claim includes close among the operations, but
close() resets num_total to 0 while a non-forced close leaves busy
resources in place, so the cached num_total no longer equals the actual
size of the union of idle and busy sets on this reachable state. -/
theorem claim_C3_counterexample :
    Reach (ResourcePool.close poolBusy100 false).1 ∧
    ¬ ((ResourcePool.close poolBusy100 false).1.numTotal =
      (dcount (ResourcePool.close poolBusy100 false).1.idleResources : Int) +
      (dcount (ResourcePool.close poolBusy100 false).1.busyResources : Int)) :=
  ⟨Reach.closeStep poolBusy100 false poolBusy100_reach, by decide⟩

/-- C3 amended: every reachable pool state satisfies num_total less-equal
max_total, size(key) less-equal max_per_key for every key,
num_idle + num_busy = num_total, num_idle at least 0, and the cached
num_idle equals the actual size of the idle set; the cached num_total
equals the actual size of the union of idle and busy sets while the pool
is not closed (close() zeroes num_total but may leave busy resources when
force is false). -/
theorem claim_C3_pool_invariants (s : ResourcePool) (hr : Reach s) :
    (0 : Int) ≤ s.numIdle ∧
    s.numTotal ≤ (s.maxItemsTotal : Int) ∧
    (∀ k, s.size k ≤ s.maxItemsPerKey) ∧
    s.numIdle + s.numBusy = s.numTotal ∧
    s.numIdle = (dcount s.idleResources : Int) ∧
    (s.closed = false →
      s.numTotal = (dcount s.idleResources : Int) +
        (dcount s.busyResources : Int)) := by
  obtain ⟨hWF, hcap, hacc1, hacc2⟩ := inv_reach s hr
  refine ⟨?_, hcap.1, hcap.2, ?_, hacc1, hacc2⟩
  · rw [hacc1]
    exact Int.natCast_nonneg _
  · unfold ResourcePool.numBusy
    omega

theorem claim_C3_pool_invariants_witness :
    (0 : Int) ≤ poolBusy100.numIdle ∧
    poolBusy100.numTotal ≤ (poolBusy100.maxItemsTotal : Int) ∧
    (∀ k, poolBusy100.size k ≤ poolBusy100.maxItemsPerKey) ∧
    poolBusy100.numIdle + poolBusy100.numBusy = poolBusy100.numTotal ∧
    poolBusy100.numIdle = (dcount poolBusy100.idleResources : Int) ∧
    (poolBusy100.closed = false →
      poolBusy100.numTotal = (dcount poolBusy100.idleResources : Int) +
        (dcount poolBusy100.busyResources : Int)) :=
  claim_C3_pool_invariants poolBusy100 poolBusy100_reach

/-- C10: on a reachable non-closed pool holding item as busy, put never
fails, in particular the internal assertion guarding against closing two
resources at once never fires, and when put(close=true) grants a need_open
to a waiter, that grant never additionally evicts an idle resource: the
result carries no need_close besides the put-back item itself. -/
theorem claim_C10_put_no_double_close (s : ResourcePool) (item : Resource)
    (close : Bool) (hr : Reach s) (hcl : s.closed = false)
    (hmem : item ∈ dget s.busyResources item.key) :
    (∃ s' r, ResourcePool.put s item close = .ok (s', r)) ∧
    ResourcePool.put s item close ≠ .error .assertTwoClose ∧
    (∀ s' r, ResourcePool.put s item close = .ok (s', r) → close = true →
      r.needNotify ≠ none → r.needClose = none) := by
  obtain ⟨hWF, hcap, hacc1, hacc2⟩ := inv_reach s hr
  obtain ⟨s', r, heq, _, _, _, _, _, _, hclosePart, _⟩ :=
    put_main s item close hWF ⟨hacc1, hacc2 hcl⟩ hcap hcl hmem
  refine ⟨⟨s', r, heq⟩, by rw [heq]; simp, ?_⟩
  intro s'' r'' heq'' hct hnn
  rw [heq] at heq''
  obtain ⟨hs, hrr⟩ : s' = s'' ∧ r = r'' := by simpa using heq''
  subst hs
  subst hrr
  obtain ⟨s1, hmid, hSO⟩ := hclosePart hct
  obtain ⟨_, _, _, hK⟩ := hSO
  rcases hK with ⟨h1, _, _, _⟩ | ⟨pre, k0, w0, ws0, post, h1, h2, h3, h4, h5, h6, h7⟩
  · exact absurd h1 hnn
  · obtain ⟨hb1, hi1, hw1, hni1, hnt1, hc1, hrid1, hfid1, hmpk1, hmt1⟩ := hmid
    apply h6
    rw [hnt1, hmt1]
    have := hcap.1
    omega

theorem claim_C10_put_no_double_close_witness :
    (∃ s' r, ResourcePool.put poolBusy1 ⟨0, 0⟩ true = .ok (s', r)) ∧
    ResourcePool.put poolBusy1 ⟨0, 0⟩ true ≠ .error .assertTwoClose ∧
    (∀ s' r, ResourcePool.put poolBusy1 ⟨0, 0⟩ true = .ok (s', r) →
      true = true → r.needNotify ≠ none → r.needClose = none) :=
  claim_C10_put_no_double_close poolBusy1 ⟨0, 0⟩ true poolBusy1_reach rfl
    (by decide)

/-- C2: put(item, close=false) on a reachable non-closed pool holding item
as busy removes the item from busy; if a waiter exists on item.key the item
is re-marked busy and the oldest waiter of that key is notified with an
idle payload; otherwise the item is appended to the idle LIFO of its key and
num_idle is incremented, and the scan over keys in insertion order
notifies the oldest waiter of the first key whose budget permits opening
with a need_open grant (the eviction need_close, when present, is carried
on the put result for the caller).  put(item, close=true) removes the item
from busy, decrements num_total, and runs the same scan, so its
notification also serves the oldest waiter of the first permitting key.
At most one waiter is notified per put call of either kind (the scan stops
at the first grant and the result holds a single optional notify).  Over
every sequence of get/put interleavings waiters are served strictly FIFO:
every notification, in every put path, takes the head of the queue of its
key and leaves the tail, and get only appends fresh waiters at the tail. -/
theorem claim_C2_put_release_fifo :
    (∀ s item s' r, Reach s → s.closed = false →
      item ∈ dget s.busyResources item.key →
      ResourcePool.put s item false = .ok (s', r) →
      ((∃ w wrest, dget s.waitings item.key = w :: wrest ∧
         r = { needNotify := some (w, Notify.idleRes item) } ∧
         s' = { s with busyResources := dset s.busyResources item.key ((dget s.busyResources item.key).erase item ++ [item]), waitings := dset s.waitings item.key wrest }) ∨
       (dget s.waitings item.key = [] ∧ ∃ s1, MidIdle s s1 item ∧
         ScanOutcomeOn s1 none s.waitings s' r))) ∧
    (∀ s item s' r, Reach s → s.closed = false →
      item ∈ dget s.busyResources item.key →
      ResourcePool.put s item true = .ok (s', r) →
      ∃ s1, MidClose s s1 item ∧
        ScanOutcomeOn s1 (some item) s.waitings s' r) ∧
    (∀ s k s' r, Reach s → s.closed = false →
      ResourcePool.get s k = .ok (s', r) →
      (∀ k', k' ≠ k → dget s'.waitings k' = dget s.waitings k') ∧
      (dget s'.waitings k = dget s.waitings k ∨
        (r.needWait = some s.nextFid ∧
         dget s'.waitings k = dget s.waitings k ++ [s.nextFid]))) := by
  constructor
  · intro s item s' r hr hcl hmem heq
    obtain ⟨hWF, hcap, hacc1, hacc2⟩ := inv_reach s hr
    obtain ⟨s'', r'', heq'', _, _, _, _, _, _, _, hfalsePart⟩ :=
      put_main s item false hWF ⟨hacc1, hacc2 hcl⟩ hcap hcl hmem
    rw [heq] at heq''
    obtain ⟨hs, hrr⟩ : s' = s'' ∧ r = r'' := by simpa using heq''
    subst hs
    subst hrr
    exact hfalsePart rfl
  constructor
  · intro s item s' r hr hcl hmem heq
    obtain ⟨hWF, hcap, hacc1, hacc2⟩ := inv_reach s hr
    obtain ⟨s'', r'', heq'', _, _, _, _, _, _, htruePart, _⟩ :=
      put_main s item true hWF ⟨hacc1, hacc2 hcl⟩ hcap hcl hmem
    rw [heq] at heq''
    obtain ⟨hs, hrr⟩ : s' = s'' ∧ r = r'' := by simpa using heq''
    subst hs
    subst hrr
    exact htruePart rfl
  · intro s k s' r hr hcl heq
    obtain ⟨hWF, hcap, hacc1, hacc2⟩ := inv_reach s hr
    obtain ⟨s'', r'', heq'', _, _, _, _, _, _, hgs⟩ :=
      get_main s k hWF ⟨hacc1, hacc2 hcl⟩ hcap hcl
    rw [heq] at heq''
    obtain ⟨hs, hrr⟩ : s' = s'' ∧ r = r'' := by simpa using heq''
    subst hs
    subst hrr
    cases hlast : (dget s.idleResources k).getLast? with
    | some item =>
        obtain ⟨_, _, _, hw, _⟩ := hgs.1 item hlast
        exact ⟨fun k' _ => by rw [hw], Or.inl (by rw [hw])⟩
    | none =>
        have hnil : dget s.idleResources k = [] := by
          cases hdg : dget s.idleResources k with
          | nil => rfl
          | cons a l =>
              rw [hdg] at hlast
              simp at hlast
        by_cases hgr : grantCond s k
        · by_cases htot : s.numTotal < (s.maxItemsTotal : Int)
          · obtain ⟨_, _, _, _, hw, _⟩ := hgs.2.1 hnil hgr.1 htot
            exact ⟨fun k' _ => by rw [hw], Or.inl (by rw [hw])⟩
          · have hidlepos : 0 < s.numIdle := hgr.2.resolve_left htot
            obtain ⟨k1, r1, rs1, _, _, _, _, _, _, hw, _⟩ :=
              hgs.2.2.1 hnil hgr.1 htot hidlepos
            exact ⟨fun k' _ => by rw [hw], Or.inl (by rw [hw])⟩
        · obtain ⟨hrw, hw, _⟩ := hgs.2.2.2 hnil hgr
          refine ⟨fun k' hk' => by rw [hw, dget_dset_ne _ _ _ _ hk'], Or.inr ⟨?_, ?_⟩⟩
          · rw [hrw]
          · rw [hw, dget_dset_self]

theorem claim_C2_put_release_fifo_witness :
    ((∃ w wrest, dget poolBusy1.waitings 0 = w :: wrest ∧
       ({} : ResourcePoolResult) =
         { needNotify := some (w, Notify.idleRes ⟨0, 0⟩) } ∧
       poolIdle1 = { poolBusy1 with busyResources := dset poolBusy1.busyResources 0 ((dget poolBusy1.busyResources 0).erase ⟨0, 0⟩ ++ [⟨0, 0⟩]), waitings := dset poolBusy1.waitings 0 wrest }) ∨
     (dget poolBusy1.waitings 0 = [] ∧ ∃ s1, MidIdle poolBusy1 s1 ⟨0, 0⟩ ∧
       ScanOutcomeOn s1 none poolBusy1.waitings poolIdle1 {})) ∧
    (∃ s1, MidClose poolBusy1 s1 ⟨0, 0⟩ ∧
      ScanOutcomeOn s1 (some ⟨0, 0⟩) poolBusy1.waitings
        { poolBusy1 with busyResources := [(0, [])], numTotal := 0 }
        { needClose := some (⟨0, 0⟩ : Resource) }) ∧
    dget poolBusy1.waitings 1 = dget (ResourcePool.init 10 1).waitings 1 :=
  ⟨claim_C2_put_release_fifo.1 poolBusy1 ⟨0, 0⟩ poolIdle1 {} poolBusy1_reach
      rfl (by decide) rfl,
   claim_C2_put_release_fifo.2.1 poolBusy1 ⟨0, 0⟩
      { poolBusy1 with busyResources := [(0, [])], numTotal := 0 }
      { needClose := some (⟨0, 0⟩ : Resource) } poolBusy1_reach
      rfl (by decide) rfl,
   (claim_C2_put_release_fifo.2.2 (ResourcePool.init 10 1) 0 poolBusy1
      { needOpen := some ⟨0, 0⟩ } (Reach.init 10 1) rfl rfl).1 1 (by decide)⟩

/-- Connection state flags from connection_pool.py: _closed and _released.
A connection with both flags false is busy. -/
structure Connection where
  closedFlag : Bool
  releasedFlag : Bool
deriving DecidableEq, Repr

/-- Connection.__init__: a freshly opened connection has both flags false. -/
def Connection.new : Connection := ⟨false, false⟩

/-- The reuse branch of ConnectionPool._get: conn._released = False. -/
def Connection.reacquire (c : Connection) : Connection :=
  { c with releasedFlag := false }

/-- Connection._close_or_release for a connection bound to resource res on
pool s: a no-op when either flag is already set; otherwise the resource is
put back, _released is set, and _close_connection_if_need sets _closed on
the connection bound to the need_close resource, which is this very
connection exactly when the pool result names res as need_close. -/
def Connection.closeOrRelease (s : ResourcePool) (c : Connection)
    (res : Resource) (close : Bool) :
    Except PoolErr (ResourcePool × Connection × ResourcePoolResult) :=
  if c.closedFlag || c.releasedFlag then .ok (s, c, {})
  else
    match ResourcePool.put s res close with
    | .error e => .error e
    | .ok (s', r) =>
        let c1 : Connection := { c with releasedFlag := true }
        let c2 : Connection :=
          if r.needClose = some res then { c1 with closedFlag := true } else c1
        .ok (s', c2, r)

/-- The claimed mutual exclusion: each connection is in exactly one of the
states busy (both flags false), released, or closed, so the two flags are
never set simultaneously. -/
def Connection.exclusiveState (c : Connection) : Prop :=
  ¬ (c.closedFlag = true ∧ c.releasedFlag = true)

/-- C5 counterexample: closing a busy connection on a pool with no waiters
returns its own resource as need_close, so _close_or_release sets _released
and then _closed on the same connection: both flags end up true, violating
the claimed exclusive three-state invariant. -/
theorem claim_C5_counterexample :
    Connection.closeOrRelease poolBusy1 Connection.new ⟨0, 0⟩ true =
      .ok ({ poolBusy1 with busyResources := [(0, [])], numTotal := 0 },
        (⟨true, true⟩ : Connection),
        { needClose := some (⟨0, 0⟩ : Resource) }) ∧
    ¬ Connection.exclusiveState ⟨true, true⟩ :=
  ⟨rfl, by simp [Connection.exclusiveState]⟩

/-- C5 amended: a newly opened or reacquired connection is busy (both flags
false); _close_or_release is a no-op once either flag is set; after a
successful disposal of a busy connection, _released is always set and
_closed is additionally set exactly when the pool returned this resource as
need_close, so at least one of the two flags is set afterwards, but both
may be set at once (a connection closed by its owner). -/
theorem claim_C5_connection_flags (s : ResourcePool) (c : Connection)
    (res : Resource) (close : Bool) :
    (Connection.new.closedFlag = false ∧
     Connection.new.releasedFlag = false) ∧
    (Connection.reacquire c).releasedFlag = false ∧
    (c.closedFlag = true ∨ c.releasedFlag = true →
      Connection.closeOrRelease s c res close = .ok (s, c, {})) ∧
    (c.closedFlag = false → c.releasedFlag = false →
      ∀ s' c' r, Connection.closeOrRelease s c res close = .ok (s', c', r) →
        c'.releasedFlag = true ∧
        (c'.closedFlag = true ↔ r.needClose = some res)) := by
  refine ⟨⟨rfl, rfl⟩, rfl, ?_, ?_⟩
  · intro h
    have hcond : (c.closedFlag || c.releasedFlag) = true := by
      rcases h with h | h <;> simp [h]
    unfold Connection.closeOrRelease
    rw [if_pos hcond]
  · intro h1 h2 s' c' r heq
    have hcond : (c.closedFlag || c.releasedFlag) = false := by
      simp [h1, h2]
    unfold Connection.closeOrRelease at heq
    rw [hcond] at heq
    simp only [Bool.false_eq_true, if_false] at heq
    cases hput : ResourcePool.put s res close with
    | error e =>
        rw [hput] at heq
        simp at heq
    | ok p =>
        obtain ⟨s'', r''⟩ := p
        rw [hput] at heq
        by_cases hnc : r''.needClose = some res
        · simp only [hnc, if_pos] at heq
          obtain ⟨hs, hc', hr⟩ : s'' = s' ∧
              ({ closedFlag := true, releasedFlag := true } : Connection) = c' ∧
              r'' = r := by simpa using heq
          subst hc'
          subst hr
          exact ⟨rfl, by simp [hnc]⟩
        · simp only [hnc, if_neg, if_false] at heq
          obtain ⟨hs, hc', hr⟩ : s'' = s' ∧
              ({ closedFlag := c.closedFlag, releasedFlag := true } :
                Connection) = c' ∧ r'' = r := by simpa using heq
          subst hc'
          subst hr
          refine ⟨rfl, ?_⟩
          simp [h1, hnc]

theorem claim_C5_connection_flags_witness :
    ((Connection.reacquire ⟨false, true⟩).releasedFlag = false) ∧
    Connection.closeOrRelease poolBusy1 ⟨false, true⟩ ⟨0, 0⟩ false =
      .ok (poolBusy1, ⟨false, true⟩, {}) ∧
    ((⟨true, true⟩ : Connection).releasedFlag = true ∧
      ((⟨true, true⟩ : Connection).closedFlag = true ↔
        ({ needClose := some (⟨0, 0⟩ : Resource) } :
          ResourcePoolResult).needClose = some ⟨0, 0⟩)) :=
  ⟨(claim_C5_connection_flags poolBusy1 ⟨false, true⟩ ⟨0, 0⟩ false).2.1,
   (claim_C5_connection_flags poolBusy1 ⟨false, true⟩ ⟨0, 0⟩ false).2.2.1
     (Or.inr rfl),
   (claim_C5_connection_flags poolBusy1 Connection.new ⟨0, 0⟩ true).2.2.2
     rfl rfl _ _ _ rfl⟩

/-- Outcome of the one-byte non-blocking recv issued by
Connection._is_peer_closed: the socket would block on read or write, or
returns data (the empty list models EOF). -/
inductive RecvProbe where
  | wantRead
  | wantWrite
  | bytes (b : List Nat)
deriving DecidableEq, Repr

/-- Connection._is_peer_closed: WantRead or WantWrite mean the peer is
alive; an empty read means the peer closed; any data read fires the assert,
modelled as an error. -/
def isPeerClosed : RecvProbe → Except Unit Bool
  | .wantRead => .ok false
  | .wantWrite => .ok false
  | .bytes b => if b = [] then .ok true else .error ()

/-- One acquisition inside the ConnectionPool.get retry loop: the connection
produced by _get (identified by cid) and the recv outcome of its probe. -/
structure Acquisition where
  cid : Nat
  probe : RecvProbe
deriving DecidableEq, Repr

/-- The while-true loop of ConnectionPool.get: probe each acquired
connection exactly once; on peer-closed, close it and retry; otherwise
return it.  Returns the closed connection ids and the returned connection
(none when the acquisition sequence is exhausted). -/
def connPoolGetLoop : List Acquisition → Except Unit (List Nat × Option Nat)
  | [] => .ok ([], none)
  | a :: rest =>
      match isPeerClosed a.probe with
      | .error e => .error e
      | .ok true =>
          match connPoolGetLoop rest with
          | .error e => .error e
          | .ok (closed, ret) => .ok (a.cid :: closed, ret)
      | .ok false => .ok ([], some a.cid)

/-- C4: the peer-closed probe issues one non-blocking one-byte read with
three outcomes: WouldBlock (read or write) means alive and the connection
is handed out; an empty read means the peer closed, and that connection is
closed while the loop acquires another, so a connection whose peer has
closed is never handed out; any data read is an invariant violation (the
assert fires).  Whenever the loop returns a connection, every earlier
acquisition probed EOF and was closed, and the returned connection probed
WouldBlock. -/
theorem claim_C4_peer_closed_probe :
    (∀ p : RecvProbe,
      ((p = .wantRead ∨ p = .wantWrite) → isPeerClosed p = .ok false) ∧
      (p = .bytes [] → isPeerClosed p = .ok true) ∧
      (∀ b, p = .bytes b → b ≠ [] → isPeerClosed p = .error ())) ∧
    (∀ acqs closed cid, connPoolGetLoop acqs = .ok (closed, some cid) →
      ∃ pre a post, acqs = pre ++ a :: post ∧ a.cid = cid ∧
        (a.probe = .wantRead ∨ a.probe = .wantWrite) ∧
        closed = pre.map Acquisition.cid ∧
        ∀ p ∈ pre, p.probe = .bytes []) := by
  constructor
  · intro p
    refine ⟨?_, ?_, ?_⟩
    · intro h
      rcases h with h | h <;> rw [h] <;> rfl
    · intro h
      rw [h]
      rfl
    · intro b h hb
      rw [h]
      simp [isPeerClosed, hb]
  · intro acqs
    induction acqs with
    | nil =>
        intro closed cid h
        simp [connPoolGetLoop] at h
    | cons a rest ih =>
        intro closed cid h
        simp only [connPoolGetLoop] at h
        cases hp : a.probe with
        | wantRead =>
            rw [hp] at h
            simp only [isPeerClosed] at h
            obtain ⟨hcl, hcid⟩ : ([] : List Nat) = closed ∧ some a.cid = some cid := by
              simpa using h
            refine ⟨[], a, rest, rfl, by simpa using hcid, Or.inl hp,
              by simp [hcl.symm], by simp⟩
        | wantWrite =>
            rw [hp] at h
            simp only [isPeerClosed] at h
            obtain ⟨hcl, hcid⟩ : ([] : List Nat) = closed ∧ some a.cid = some cid := by
              simpa using h
            refine ⟨[], a, rest, rfl, by simpa using hcid, Or.inr hp,
              by simp [hcl.symm], by simp⟩
        | bytes b =>
            rw [hp] at h
            by_cases hb : b = []
            · subst hb
              simp only [isPeerClosed, if_pos rfl] at h
              cases hrec : connPoolGetLoop rest with
              | error e =>
                  rw [hrec] at h
                  simp at h
              | ok p =>
                  obtain ⟨closed', ret⟩ := p
                  rw [hrec] at h
                  obtain ⟨hcl, hret⟩ : a.cid :: closed' = closed ∧
                      ret = some cid := by simpa using h
                  subst hret
                  obtain ⟨pre, a', post, h1, h2, h3, h4, h5⟩ :=
                    ih closed' cid hrec
                  refine ⟨a :: pre, a', post, by simp [h1], h2, h3, ?_, ?_⟩
                  · simp [hcl.symm, h4]
                  · intro q hq
                    rcases List.mem_cons.mp hq with hq | hq
                    · rw [hq]
                      exact hp
                    · exact h5 q hq
            · simp [isPeerClosed, hb] at h

theorem claim_C4_peer_closed_probe_witness :
    (isPeerClosed RecvProbe.wantRead = .ok false ∧
     isPeerClosed (RecvProbe.bytes []) = .ok true ∧
     isPeerClosed (RecvProbe.bytes [65]) = .error ()) ∧
    (∃ pre a post,
      [Acquisition.mk 7 (RecvProbe.bytes []), Acquisition.mk 8 RecvProbe.wantRead] =
        pre ++ a :: post ∧ a.cid = 8 ∧
      (a.probe = RecvProbe.wantRead ∨ a.probe = RecvProbe.wantWrite) ∧
      [7] = pre.map Acquisition.cid ∧
      ∀ p ∈ pre, p.probe = RecvProbe.bytes []) :=
  ⟨⟨(claim_C4_peer_closed_probe.1 RecvProbe.wantRead).1 (Or.inl rfl),
    (claim_C4_peer_closed_probe.1 (RecvProbe.bytes [])).2.1 rfl,
    (claim_C4_peer_closed_probe.1 (RecvProbe.bytes [65])).2.2 [65] rfl
      (by simp)⟩,
   claim_C4_peer_closed_probe.2
     [Acquisition.mk 7 (RecvProbe.bytes []), Acquisition.mk 8 RecvProbe.wantRead]
     [7] 8 rfl⟩

/-- CuSession._get_next_method from sessions.py: 303 turns any non-HEAD
method into GET, then 302 turns any non-HEAD method into GET, then 301
turns POST into GET. -/
def getNextMethod (statusCode : Nat) (method : String) : String :=
  let m1 := if statusCode = 303 ∧ method ≠ "HEAD" then "GET" else method
  let m2 := if statusCode = 302 ∧ m1 ≠ "HEAD" then "GET" else m1
  if statusCode = 301 ∧ m2 = "POST" then "GET" else m2

/-- Modelled from the claim wording, for comparison with the source: 303
maps to GET, 302 maps POST to GET, 301 maps POST to GET, and in every
other case the prior method is preserved. -/
def claimNextMethod (statusCode : Nat) (method : String) : String :=
  if statusCode = 303 then "GET"
  else if statusCode = 302 ∧ method = "POST" then "GET"
  else if statusCode = 301 ∧ method = "POST" then "GET"
  else method

/-- C6 counterexample: on a 302 response to a PUT request the code turns
the method into GET although the claim says only POST is rewritten on 302
(and on 303 HEAD the code preserves HEAD although the claim says 303
always maps to GET). -/
theorem claim_C6_counterexample :
    getNextMethod 302 "PUT" = "GET" ∧ claimNextMethod 302 "PUT" = "PUT" ∧
    getNextMethod 302 "PUT" ≠ claimNextMethod 302 "PUT" := by
  refine ⟨rfl, rfl, ?_⟩
  intro h
  simp only [getNextMethod, claimNextMethod] at h
  exact absurd h (by decide)

/-- C6 amended: the new method after a redirect is GET when the status is
303 or 302 and the prior method is not HEAD, GET when the status is 301
and the prior method is POST, and the prior method otherwise. -/
theorem claim_C6_next_method (statusCode : Nat) (method : String) :
    getNextMethod statusCode method =
      if (statusCode = 303 ∨ statusCode = 302) ∧ method ≠ "HEAD" then "GET"
      else if statusCode = 301 ∧ method = "POST" then "GET"
      else method := by
  rcases eq_or_ne statusCode 303 with h3 | h3
  · subst h3
    by_cases hh : method = "HEAD"
    · subst hh
      rfl
    · simp [getNextMethod, hh]
  rcases eq_or_ne statusCode 302 with h2 | h2
  · subst h2
    by_cases hh : method = "HEAD"
    · subst hh
      rfl
    · simp [getNextMethod, hh]
  rcases eq_or_ne statusCode 301 with h1 | h1
  · subst h1
    by_cases hp : method = "POST"
    · subst hp
      rfl
    · simp [getNextMethod, h3, h2, hp]
  · simp [getNextMethod, h3, h2, h1]

/-- The verify argument of CuHTTPAdapter.send: true, false, or a CA bundle
path; truthiness follows Python (an empty path string is falsy). -/
inductive VerifyOpt where
  | yes
  | no
  | caPath (p : String)
deriving DecidableEq, Repr

def VerifyOpt.truthy : VerifyOpt → Bool
  | .yes => true
  | .no => false
  | .caPath p => !p.isEmpty

/-- The cert argument: absent, a certificate file, or a (cert, key) pair. -/
inductive CertOpt where
  | absent
  | certFile (c : String)
  | certPair (c k : String)
deriving DecidableEq, Repr

def CertOpt.truthy : CertOpt → Bool
  | .absent => false
  | .certFile c => !c.isEmpty
  | .certPair _ _ => true

/-- The ssl parameters produced by CuHTTPAdapter.get_ssl_params: plain is
the dict with ssl=False, tls is a built ssl context with its verify mode
and the server_hostname entry. -/
inductive SslParams where
  | plain
  | tls (certRequired : Bool) (serverHostname : Option String)
deriving DecidableEq, Repr

/-- Python str.lower() for the ascii scheme strings compared here. -/
def lowerStr (s : String) : String := ⟨s.data.map Char.toLower⟩

/-- CuHTTPAdapter.get_ssl_params (the filesystem existence checks on
certificate paths are elided): a non-https scheme, or falsy verify with
falsy cert, yields ssl=False; otherwise a TLS context is built, with
CERT_REQUIRED and server_hostname set only when verify is truthy. -/
def getSslParams (scheme host : String) (verify : VerifyOpt)
    (cert : CertOpt) : SslParams :=
  if lowerStr scheme ≠ "https" ∨ (verify.truthy = false ∧ cert.truthy = false)
  then .plain
  else .tls verify.truthy (if verify.truthy then some host else none)

/-- The socket produced by network.open_connection composed with
network.ssl_wrap_socket. -/
inductive SockKind where
  | plainSock
  | tlsSock (certRequired : Bool) (serverHostname : Option String)
deriving DecidableEq, Repr

/-- network.open_connection: without an ssl context the plain TCP socket is
returned; otherwise ssl_wrap_socket wraps it, and a missing server_hostname
sets check_hostname=False and verify_mode=CERT_NONE. -/
def openConnection : SslParams → SockKind
  | .plain => .plainSock
  | .tls _ none => .tlsSock false none
  | .tls cr (some h) => .tlsSock cr (some h)

/-- C7 counterexample: for an https URL with verify=False and no client
certificate, get_ssl_params returns ssl=False and open_connection returns
the plain TCP socket, so TLS is not negotiated, contradicting the claim
that https always wraps in TLS. -/
theorem claim_C7_counterexample :
    getSslParams "https" "example.com" VerifyOpt.no CertOpt.absent =
      SslParams.plain ∧
    openConnection
      (getSslParams "https" "example.com" VerifyOpt.no CertOpt.absent) =
      SockKind.plainSock :=
  ⟨rfl, rfl⟩

/-- C7 amended: for an https URL, TLS is negotiated exactly when verify is
truthy or a client certificate is given: truthy verify yields a verifying
TLS connection with server_hostname set; falsy verify with a certificate
yields TLS without certificate verification; falsy verify with no
certificate yields a plaintext connection. -/
theorem claim_C7_https_tls (host : String) (verify : VerifyOpt)
    (cert : CertOpt) :
    openConnection (getSslParams "https" host verify cert) =
      (if verify.truthy then SockKind.tlsSock true (some host)
       else if cert.truthy then SockKind.tlsSock false none
       else SockKind.plainSock) := by
  have hl : lowerStr "https" = "https" := rfl
  cases hv : verify.truthy <;> cases hc : cert.truthy <;>
    simp [getSslParams, openConnection, hl, hv, hc]

/-- Abstract model of the external httptools response parser driven by
ResponseParser: feeding data yields a new parser state and the body chunks
emitted by the on_body callback; headersCompleted and completed are the
state flags set by on_headers_complete and on_message_complete. -/
structure ParserSim (σ : Type) where
  feed : σ → List Nat → σ × List (List Nat)
  headersCompleted : σ → Bool
  completed : σ → Bool

/-- The while loop of ResponseParser.parse: the socket is a list of recv
results (recv on an exhausted socket returns the empty chunk, modelling
EOF); each iteration reads, feeds the parser (also with empty data), and
stops when the headers are complete or the read was empty.  Returns the
final parser state, the buffered body chunks, and the unread socket. -/
def parseHeadersLoop {σ : Type} (P : ParserSim σ) (st : σ)
    (buf : List (List Nat)) :
    List (List Nat) → σ × List (List Nat) × List (List Nat)
  | [] =>
      if P.headersCompleted st then (st, buf, [])
      else
        let p := P.feed st []
        (p.1, buf ++ p.2, [])
  | c :: rest =>
      if P.headersCompleted st then (st, buf, c :: rest)
      else
        let p := P.feed st c
        if c = [] then (p.1, buf ++ p.2, rest)
        else parseHeadersLoop P p.1 (buf ++ p.2) rest

/-- ResponseParser.parse up to the protocol error check: raises
ProtocolError with the exact message of the source when the loop finished
without completed headers. -/
def responseParse {σ : Type} (P : ParserSim σ) (st : σ)
    (sock : List (List Nat)) :
    Except String (σ × List (List Nat) × List (List Nat)) :=
  let t := parseHeadersLoop P st [] sock
  if P.headersCompleted t.1 then .ok t
  else .error "incomplete response headers"

/-- The generator ResponseParser.body_stream, drained to a list: yields the
buffered chunks, then reads and feeds until the message is complete
(feeding even empty data so the parser can complete at EOF), breaking at an
empty read, and raises ProtocolError when the message is incomplete.  acc
accumulates all yielded chunks (on a raise the already-yielded chunks are
simply discarded by this model). -/
def bodyStreamDrain {σ : Type} (P : ParserSim σ) (st : σ)
    (acc : List (List Nat)) :
    List (List Nat) → Except String (σ × List (List Nat) × List (List Nat))
  | [] =>
      if P.completed st then .ok (st, acc, [])
      else
        let p := P.feed st []
        if P.completed p.1 then .ok (p.1, acc ++ p.2, [])
        else .error "incomplete response body"
  | c :: rest =>
      if P.completed st then .ok (st, acc, c :: rest)
      else
        let p := P.feed st c
        if c = [] then
          if P.completed p.1 then .ok (p.1, acc ++ p.2, rest)
          else .error "incomplete response body"
        else bodyStreamDrain P p.1 (acc ++ p.2) rest

/-- The socket reached EOF: the loop consumed everything, or it stopped at
an explicit empty read. -/
def EofReached (sock rest : List (List Nat)) : Prop :=
  rest = [] ∨ ∃ pre, sock = pre ++ ([] : List Nat) :: rest

theorem parseHeadersLoop_eof {σ : Type} (P : ParserSim σ) :
    ∀ (sock : List (List Nat)) (st : σ) (buf : List (List Nat)),
      P.headersCompleted (parseHeadersLoop P st buf sock).1 = false →
      EofReached sock (parseHeadersLoop P st buf sock).2.2 := by
  intro sock
  induction sock with
  | nil =>
      intro st buf h
      left
      by_cases hc : P.headersCompleted st = true <;>
        simp [parseHeadersLoop, hc]
  | cons c rest ih =>
      intro st buf h
      by_cases hc : P.headersCompleted st = true
      · rw [parseHeadersLoop, if_pos hc] at h
        exact absurd hc (by simp [h])
      · rw [Bool.not_eq_true] at hc
        by_cases hce : c = []
        · subst hce
          right
          refine ⟨[], ?_⟩
          have hstep : parseHeadersLoop P st buf (([] : List Nat) :: rest) =
              ((P.feed st []).1, buf ++ (P.feed st []).2, rest) := by
            rw [parseHeadersLoop, if_neg (by simp [hc]), if_pos rfl]
          rw [hstep]
          rfl
        · have hloop : parseHeadersLoop P st buf (c :: rest) =
              parseHeadersLoop P (P.feed st c).1 (buf ++ (P.feed st c).2) rest := by
            rw [parseHeadersLoop, if_neg (by simp [hc]), if_neg hce]
          rw [hloop] at h ⊢
          rcases ih _ _ h with h' | ⟨pre, hpre⟩
          · left
            exact h'
          · right
            exact ⟨c :: pre, by rw [List.cons_append, ← hpre]⟩

/-- C8: if the socket reaches EOF before the response headers are complete,
parse() fails with ProtocolError('incomplete response headers') and this is
the only error parse() raises, and it only arises when EOF was actually
reached; if the socket reaches EOF while the body stream is consumed before
the message is complete, the stream raises
ProtocolError('incomplete response body'), the only error it raises, and a
successful drain always ends with a complete message. -/
theorem claim_C8_incomplete_protocol_errors :
    (∀ (σ : Type) (P : ParserSim σ) (st : σ) (sock : List (List Nat)),
      (P.headersCompleted (parseHeadersLoop P st [] sock).1 = false →
        responseParse P st sock = .error "incomplete response headers") ∧
      (∀ e, responseParse P st sock = .error e →
        e = "incomplete response headers" ∧
        P.headersCompleted (parseHeadersLoop P st [] sock).1 = false ∧
        EofReached sock (parseHeadersLoop P st [] sock).2.2)) ∧
    (∀ (σ : Type) (P : ParserSim σ) (st : σ) (acc : List (List Nat)),
      (P.completed st = false → P.completed (P.feed st []).1 = false →
        bodyStreamDrain P st acc [] = .error "incomplete response body") ∧
      (∀ sock e, bodyStreamDrain P st acc sock = .error e →
        e = "incomplete response body") ∧
      (∀ sock st' ys rest, bodyStreamDrain P st acc sock = .ok (st', ys, rest) →
        P.completed st' = true)) := by
  refine ⟨?_, ?_⟩
  · intro σ P st sock
    constructor
    · intro h
      unfold responseParse
      rw [if_neg (by simp [h])]
    · intro e he
      unfold responseParse at he
      by_cases hc : P.headersCompleted (parseHeadersLoop P st [] sock).1 = true
      · rw [if_pos hc] at he
        simp at he
      · rw [Bool.not_eq_true] at hc
        rw [if_neg (by simp [hc])] at he
        refine ⟨by simpa using he.symm, hc, parseHeadersLoop_eof P sock st [] hc⟩
  · intro σ P st acc
    refine ⟨?_, ?_, ?_⟩
    · intro h1 h2
      simp only [bodyStreamDrain, h1, Bool.false_eq_true, if_false, h2]
    · intro sock
      induction sock generalizing st acc with
      | nil =>
          intro e he
          simp only [bodyStreamDrain] at he
          by_cases h1 : P.completed st = true
          · rw [if_pos h1] at he
            simp at he
          · rw [if_neg h1] at he
            by_cases h2 : P.completed (P.feed st []).1 = true
            · rw [if_pos h2] at he
              simp at he
            · rw [if_neg h2] at he
              simpa using he.symm
      | cons c rest ih =>
          intro e he
          simp only [bodyStreamDrain] at he
          by_cases h1 : P.completed st = true
          · rw [if_pos h1] at he
            simp at he
          · rw [if_neg h1] at he
            by_cases hce : c = []
            · rw [if_pos hce] at he
              by_cases h2 : P.completed (P.feed st c).1 = true
              · rw [if_pos h2] at he
                simp at he
              · rw [if_neg h2] at he
                simpa using he.symm
            · rw [if_neg hce] at he
              exact ih _ _ _ he
    · intro sock
      induction sock generalizing st acc with
      | nil =>
          intro st' ys rest he
          simp only [bodyStreamDrain] at he
          by_cases h1 : P.completed st = true
          · rw [if_pos h1] at he
            obtain ⟨hst, _, _⟩ : st = st' ∧ acc = ys ∧ ([] : List (List Nat)) = rest := by
              simpa using he
            rw [← hst]
            exact h1
          · rw [if_neg h1] at he
            by_cases h2 : P.completed (P.feed st []).1 = true
            · rw [if_pos h2] at he
              obtain ⟨hst, _, _⟩ : (P.feed st []).1 = st' ∧ _ ∧ _ := by
                simpa using he
              rw [← hst]
              exact h2
            · rw [if_neg h2] at he
              simp at he
      | cons c rest ih =>
          intro st' ys rest' he
          simp only [bodyStreamDrain] at he
          by_cases h1 : P.completed st = true
          · rw [if_pos h1] at he
            obtain ⟨hst, _, _⟩ : st = st' ∧ _ ∧ _ := by simpa using he
            rw [← hst]
            exact h1
          · rw [if_neg h1] at he
            by_cases hce : c = []
            · rw [if_pos hce] at he
              by_cases h2 : P.completed (P.feed st c).1 = true
              · rw [if_pos h2] at he
                obtain ⟨hst, _, _⟩ : (P.feed st c).1 = st' ∧ _ ∧ _ := by
                  simpa using he
                rw [← hst]
                exact h2
              · rw [if_neg h2] at he
                simp at he
            · rw [if_neg hce] at he
              exact ih _ _ _ _ _ he

/-- A parser simulation whose state flags never become true: feeding
returns the data as one body chunk. -/
def simNever : ParserSim Bool :=
  { feed := fun s c => (s, [c])
    headersCompleted := fun s => s
    completed := fun s => s }

theorem claim_C8_incomplete_protocol_errors_witness :
    (simNever.headersCompleted (parseHeadersLoop simNever false [] []).1 =
        false ∧
      responseParse simNever false [] = .error "incomplete response headers") ∧
    (simNever.completed false = false ∧
      simNever.completed (simNever.feed false []).1 = false ∧
      bodyStreamDrain simNever false [] [] =
        .error "incomplete response body") :=
  ⟨⟨rfl, (claim_C8_incomplete_protocol_errors.1 Bool simNever false []).1 rfl⟩,
   ⟨rfl, rfl,
    (claim_C8_incomplete_protocol_errors.2 Bool simNever false []).1 rfl rfl⟩⟩

/-- Byte strings as lists of byte values. -/
abbrev Bytes := List Nat

/-- The CRLF line ending bEOL from models.py. -/
def bEOL : Bytes := [13, 10]

/-- A Field payload: inline content bytes, or a file modelled by its
successive read results (the generator stops at the first empty read). -/
inductive FieldPayload where
  | inlineContent (content : Bytes)
  | fileReads (reads : List Bytes)
deriving DecidableEq, Repr

/-- A multipart Field: its encoded headers, the recorded content_length
(set by Field.__init__ from len(content) or super_len(file)), and the
payload. -/
structure MField where
  encodedHeaders : Bytes
  contentLength : Nat
  payload : FieldPayload
deriving DecidableEq, Repr

/-- The chunks MultipartBody._generator yields for one field payload:
inline content whole, or file chunks until a falsy (empty) read. -/
def payloadChunks : FieldPayload → List Bytes
  | .inlineContent c => [c]
  | .fileReads reads => reads.takeWhile (fun c => !c.isEmpty)

/-- Total number of bytes in a chunk list. -/
def totalBytes (chunks : List Bytes) : Nat := (chunks.map List.length).sum

/-- The number of bytes the generator actually emits for a payload. -/
def actualPayloadLength (p : FieldPayload) : Nat := totalBytes (payloadChunks p)

/-- MultipartBody: the ordered fields and the encoded boundary. -/
structure MultipartBody where
  fields : List MField
  boundary : Bytes
deriving DecidableEq, Repr

/-- MultipartBody._compute_content_length. -/
def computeContentLength (m : MultipartBody) : Nat :=
  (m.fields.map (fun f =>
    2 + m.boundary.length + bEOL.length + f.encodedHeaders.length +
    bEOL.length + bEOL.length + f.contentLength + bEOL.length)).sum +
  (2 + m.boundary.length + 2 + bEOL.length)

/-- MultipartBody._generator drained to its list of yielded chunks: for
each field the separator line with the encoded headers and blank line, the
payload chunks, and a CRLF; then the closing boundary line (45 is the byte
of the dash). -/
def generatorChunks (m : MultipartBody) : List Bytes :=
  (m.fields.map (fun f =>
    ([45, 45] ++ m.boundary ++ bEOL ++ f.encodedHeaders ++ bEOL ++ bEOL) ::
      (payloadChunks f.payload ++ [bEOL]))).flatten ++
  [[45, 45] ++ m.boundary ++ [45, 45] ++ bEOL]

theorem multipart_fields_length (boundary : Bytes) :
    ∀ fields : List MField,
      (∀ f ∈ fields, f.contentLength = actualPayloadLength f.payload) →
      (fields.map (fun f =>
        2 + boundary.length + bEOL.length + f.encodedHeaders.length +
        bEOL.length + bEOL.length + f.contentLength + bEOL.length)).sum =
      totalBytes ((fields.map (fun f =>
        ([45, 45] ++ boundary ++ bEOL ++ f.encodedHeaders ++ bEOL ++ bEOL) ::
          (payloadChunks f.payload ++ [bEOL]))).flatten) := by
  intro fields
  induction fields with
  | nil =>
      intro _
      simp [totalBytes]
  | cons f rest ih =>
      intro h
      have hf := h f (List.mem_cons_self f rest)
      have ih' := ih (fun g hg => h g (List.mem_cons_of_mem f hg))
      have hbe : bEOL.length = 2 := rfl
      simp only [actualPayloadLength, totalBytes] at hf ih' ⊢
      simp only [List.map_cons, List.sum_cons, List.flatten_cons,
        List.map_append, List.sum_append, List.length_append, hbe,
        List.length_cons, List.length_nil, List.sum_nil, List.map_nil]
        at ih' ⊢
      omega

/-- C9: when the recorded content_length of every field equals the number of
bytes its payload actually yields (as is the case for every inline-content
field by construction), len(MultipartBody) as computed by
_compute_content_length equals the total number of bytes emitted by the
chunk generator, so streaming never requires chunked transfer. -/
theorem claim_C9_multipart_length (m : MultipartBody)
    (h : ∀ f ∈ m.fields, f.contentLength = actualPayloadLength f.payload) :
    computeContentLength m = totalBytes (generatorChunks m) := by
  have haux := multipart_fields_length m.boundary m.fields h
  have hbe : bEOL.length = 2 := rfl
  unfold computeContentLength generatorChunks
  simp only [totalBytes, List.map_append, List.sum_append] at haux ⊢
  simp only [List.map_cons, List.map_nil, List.sum_cons, List.sum_nil,
    List.length_append, hbe, List.length_cons, List.length_nil] at haux ⊢
  omega

/-- A two-field multipart body: one inline field and one file field whose
recorded length matches its reads. -/
def mpExample : MultipartBody :=
  { fields := [⟨[72, 58, 86], 3, .inlineContent [65, 66, 67]⟩,
               ⟨[75, 58, 87], 2, .fileReads [[68, 69], [], [70]]⟩]
    boundary := [98, 100] }

theorem claim_C9_multipart_length_witness :
    computeContentLength mpExample = totalBytes (generatorChunks mpExample) :=
  claim_C9_multipart_length mpExample (by decide)

end Curequests
